import Mathlib

/-!
# Verification of the BVH viewer core (src/main.js)

A shallow embedding of the BVH parser (`BVHParser.parse`, `parseHierarchy`,
`parseMotion`), the bone-table construction (`BVHViewer.createBonesFromBVH`),
the per-frame forward-kinematics evaluator (`BVHViewer.updateFrame`), and the
skeleton normalizer (`BVHViewer.normalizeSkeletonScale`,
`findHeadPosition`, `findLowestFootPosition`).

Modelling conventions:
* JavaScript numbers are modelled as `JsNum := Option ℚ`, where `none` stands
  for NaN (and for `undefined` flowing into arithmetic, which also yields NaN).
  Arithmetic on `JsNum` propagates `none`, matching IEEE NaN propagation.
* `Math.cos (degToRad v)` / `Math.sin (degToRad v)` are abstracted as a
  `Trig` structure carrying two functions `ℚ → ℚ` taking the angle in
  degrees; theorems that need particular trigonometric values take them as
  hypotheses (e.g. `cosd 0 = 1`), which hold for the real cosine/sine.
* The line-splitting, trimming and regular-expression matching done by the
  JavaScript code are modelled character-by-character on `List Char`.
* Fallible code paths (thrown exceptions) are modelled with `Option`/`Except`.
-/

/-! ## JavaScript numbers: `Option ℚ` with `none` = NaN -/

/-- A JavaScript number restricted to the values arising in this program:
either a rational or NaN (`none`).  `undefined` used in arithmetic also
becomes NaN, hence is represented by `none` as well. -/
abbrev JsNum := Option ℚ

namespace JsNum

/-- NaN-propagating addition. -/
def add (a b : JsNum) : JsNum := Option.bind a (fun x => Option.map (fun y => x + y) b)

/-- NaN-propagating subtraction. -/
def sub (a b : JsNum) : JsNum := Option.bind a (fun x => Option.map (fun y => x - y) b)

/-- NaN-propagating multiplication.  (JavaScript's `0 * Infinity = NaN` edge
cases do not arise: no infinity is ever produced in the modelled code paths.) -/
def mul (a b : JsNum) : JsNum := Option.bind a (fun x => Option.map (fun y => x * y) b)

/-- NaN-propagating negation. -/
def neg (a : JsNum) : JsNum := Option.map (fun x => -x) a

/-- Division as used at `scale = targetHeight / bodyHeight` in
`normalizeSkeletonScale`.  The divisor there is guarded by `bodyHeight > 1`,
so the `y = 0` case (JavaScript `Infinity`) is unreachable; it is mapped to
`none` here. -/
def div (a b : JsNum) : JsNum :=
  Option.bind a (fun x => Option.bind b (fun y => if y = 0 then none else some (x / y)))

/-- JavaScript `<` : any comparison involving NaN is false. -/
def lt (a b : JsNum) : Bool :=
  match a, b with
  | some x, some y => decide (x < y)
  | _, _ => false

/-- JavaScript `<=` : any comparison involving NaN is false. -/
def le (a b : JsNum) : Bool :=
  match a, b with
  | some x, some y => decide (x ≤ y)
  | _, _ => false

instance : Add JsNum := ⟨add⟩
instance : Sub JsNum := ⟨sub⟩
instance : Mul JsNum := ⟨mul⟩
instance : Neg JsNum := ⟨neg⟩

theorem add_def (a b : JsNum) : a + b = JsNum.add a b := rfl
theorem mul_def (a b : JsNum) : a * b = JsNum.mul a b := rfl
theorem sub_def (a b : JsNum) : a - b = JsNum.sub a b := rfl

@[simp] theorem some_add_some (x y : ℚ) : (some x + some y : JsNum) = some (x + y) := rfl
@[simp] theorem some_mul_some (x y : ℚ) : (some x * some y : JsNum) = some (x * y) := rfl
@[simp] theorem some_sub_some (x y : ℚ) : (some x - some y : JsNum) = some (x - y) := rfl
@[simp] theorem none_add (b : JsNum) : (none + b : JsNum) = none := rfl
@[simp] theorem none_mul (b : JsNum) : (none * b : JsNum) = none := rfl
@[simp] theorem add_none (a : JsNum) : (a + none : JsNum) = none := by cases a <;> rfl
@[simp] theorem mul_none (a : JsNum) : (a * none : JsNum) = none := by cases a <;> rfl

end JsNum

/-- A 3-component position vector of JavaScript numbers (`THREE.Vector3`). -/
structure V3 where
  x : JsNum
  y : JsNum
  z : JsNum
deriving DecidableEq, Repr

/-- Component-wise `V3` addition, as written out at the End-Site update and in
`createBonesFromBVH` (`parentPos.x + node.offset[0]`, …). -/
def V3.addOffset (p : V3) (off : V3) : V3 :=
  ⟨p.x + off.x, p.y + off.y, p.z + off.z⟩

/-! ## 4×4 matrices (`THREE.Matrix4`) -/

/-- A 4×4 matrix of JavaScript numbers, written in row/column notation
(`mRC` = row R, column C).  `THREE.Matrix4` stores elements column-major but
its `multiply`, `makeTranslation`, `makeRotation*` and
`setFromMatrixPosition` semantics are the standard mathematical ones
modelled here. -/
structure M4 where
  m00 : JsNum
  m01 : JsNum
  m02 : JsNum
  m03 : JsNum
  m10 : JsNum
  m11 : JsNum
  m12 : JsNum
  m13 : JsNum
  m20 : JsNum
  m21 : JsNum
  m22 : JsNum
  m23 : JsNum
  m30 : JsNum
  m31 : JsNum
  m32 : JsNum
  m33 : JsNum
deriving DecidableEq, Repr

namespace M4

/-- The identity matrix (`new THREE.Matrix4()`). -/
def id4 : M4 :=
  ⟨some 1, some 0, some 0, some 0,
   some 0, some 1, some 0, some 0,
   some 0, some 0, some 1, some 0,
   some 0, some 0, some 0, some 1⟩

/-- Matrix product `a * b`; `a.multiply(b)` sets `a` to this value and
`multiplyMatrices(a, b)` stores it in the receiver. -/
def mul (a b : M4) : M4 where
  m00 := a.m00*b.m00 + a.m01*b.m10 + a.m02*b.m20 + a.m03*b.m30
  m01 := a.m00*b.m01 + a.m01*b.m11 + a.m02*b.m21 + a.m03*b.m31
  m02 := a.m00*b.m02 + a.m01*b.m12 + a.m02*b.m22 + a.m03*b.m32
  m03 := a.m00*b.m03 + a.m01*b.m13 + a.m02*b.m23 + a.m03*b.m33
  m10 := a.m10*b.m00 + a.m11*b.m10 + a.m12*b.m20 + a.m13*b.m30
  m11 := a.m10*b.m01 + a.m11*b.m11 + a.m12*b.m21 + a.m13*b.m31
  m12 := a.m10*b.m02 + a.m11*b.m12 + a.m12*b.m22 + a.m13*b.m32
  m13 := a.m10*b.m03 + a.m11*b.m13 + a.m12*b.m23 + a.m13*b.m33
  m20 := a.m20*b.m00 + a.m21*b.m10 + a.m22*b.m20 + a.m23*b.m30
  m21 := a.m20*b.m01 + a.m21*b.m11 + a.m22*b.m21 + a.m23*b.m31
  m22 := a.m20*b.m02 + a.m21*b.m12 + a.m22*b.m22 + a.m23*b.m32
  m23 := a.m20*b.m03 + a.m21*b.m13 + a.m22*b.m23 + a.m23*b.m33
  m30 := a.m30*b.m00 + a.m31*b.m10 + a.m32*b.m20 + a.m33*b.m30
  m31 := a.m30*b.m01 + a.m31*b.m11 + a.m32*b.m21 + a.m33*b.m31
  m32 := a.m30*b.m02 + a.m31*b.m12 + a.m32*b.m22 + a.m33*b.m32
  m33 := a.m30*b.m03 + a.m31*b.m13 + a.m32*b.m23 + a.m33*b.m33

/-- `new THREE.Matrix4().makeTranslation(x, y, z)`. -/
def makeTranslation (x y z : JsNum) : M4 :=
  ⟨some 1, some 0, some 0, x,
   some 0, some 1, some 0, y,
   some 0, some 0, some 1, z,
   some 0, some 0, some 0, some 1⟩

/-- `new THREE.Matrix4().makeRotationX(θ)` with `c = cos θ`, `s = sin θ`
already evaluated by the caller's trig model. -/
def makeRotationX (c s : JsNum) : M4 :=
  ⟨some 1, some 0, some 0, some 0,
   some 0, c,      -s,     some 0,
   some 0, s,      c,      some 0,
   some 0, some 0, some 0, some 1⟩

/-- `new THREE.Matrix4().makeRotationY(θ)`. -/
def makeRotationY (c s : JsNum) : M4 :=
  ⟨c,      some 0, s,      some 0,
   some 0, some 1, some 0, some 0,
   -s,     some 0, c,      some 0,
   some 0, some 0, some 0, some 1⟩

/-- `new THREE.Matrix4().makeRotationZ(θ)`. -/
def makeRotationZ (c s : JsNum) : M4 :=
  ⟨c,      -s,     some 0, some 0,
   s,      c,      some 0, some 0,
   some 0, some 0, some 1, some 0,
   some 0, some 0, some 0, some 1⟩

/-- `new THREE.Vector3().setFromMatrixPosition(m)`: the translation column. -/
def position (m : M4) : V3 := ⟨m.m03, m.m13, m.m23⟩

end M4

/-- The trigonometric model: `cosd v` stands for
`Math.cos(THREE.MathUtils.degToRad(v))` and `sind v` for the corresponding
sine, with `v` in degrees.  Theorems assume concrete values (such as
`cosd 0 = 1`) as hypotheses; these hold for the real functions. -/
structure Trig where
  cosd : ℚ → ℚ
  sind : ℚ → ℚ

/-- `Math.cos` of a NaN degree value is NaN. -/
def Trig.jcos (t : Trig) (v : JsNum) : JsNum := Option.map t.cosd v

/-- `Math.sin` of a NaN degree value is NaN. -/
def Trig.jsin (t : Trig) (v : JsNum) : JsNum := Option.map t.sind v

/-! ## Character-level string utilities

`BVHParser.parse` begins with
`content.split('\n').map(line => line.trim()).filter(line => line)`;
lines are then tokenized with `line.split(/\s+/)` and matched with
`startsWith` and regular expressions.  These operations are modelled on
`List Char`. -/

/-- One-pass splitter: `acc` holds the (reversed) token being read. -/
def wsSplitAux : List Char → List Char → List (List Char)
  | [], acc => if acc.isEmpty then [] else [acc.reverse]
  | c :: cs, acc =>
    if c.isWhitespace then
      if acc.isEmpty then wsSplitAux cs [] else acc.reverse :: wsSplitAux cs []
    else wsSplitAux cs (c :: acc)

/-- Whitespace-splitting of a line, modelling `line.split(/\s+/)` on an
already-trimmed line: maximal runs of non-whitespace characters, with empty
pieces discarded (for a trimmed line the JavaScript split produces no empty
pieces either). -/
def wsSplit (cs : List Char) : List (List Char) := wsSplitAux cs []

/-- Tokens of a line, as strings: `line.split(/\s+/)` (the `parts` array). -/
def splitWs (line : String) : List String :=
  (wsSplit line.toList).map (fun cs => ⟨cs⟩)

/-- `a.startsWith(b)`. -/
def startsWithS (pre s : String) : Bool := pre.toList.isPrefixOf s.toList

/-- `line.trim()`: strip leading and trailing whitespace. -/
def trimChars (cs : List Char) : List Char :=
  ((cs.dropWhile Char.isWhitespace).reverse.dropWhile Char.isWhitespace).reverse

/-- `content.split('\n').map(line => line.trim()).filter(line => line)`:
the whitespace-trimmed, non-empty lines of the input text. -/
def jsLines (content : String) : List String :=
  (((content.toList.splitOn '\n').map trimChars).map (fun cs => (⟨cs⟩ : String))).filter
    (fun l => l ≠ "")

/-- Numeric value of a list of decimal digit characters, most significant
first (the leading-digits part of `parseFloat`/`parseInt`). -/
def digitsVal (ds : List Char) : ℕ :=
  ds.foldl (fun acc d => 10 * acc + (d.toNat - '0'.toNat)) 0

/-- `parseInt(tok)` (radix 10): optional sign, then a non-empty run of
digits; `none` is NaN.  (Leading whitespace never occurs in the tokens this
is applied to, and `parseInt` ignores everything after the digit run.) -/
def parseIntJS (tok : List Char) : Option ℤ :=
  match tok with
  | '-' :: rest =>
    let ds := rest.takeWhile Char.isDigit
    if ds = [] then none else some (-(digitsVal ds : ℤ))
  | '+' :: rest =>
    let ds := rest.takeWhile Char.isDigit
    if ds = [] then none else some (digitsVal ds : ℤ)
  | _ =>
    let ds := tok.takeWhile Char.isDigit
    if ds = [] then none else some (digitsVal ds : ℤ)

/-- `parseInt` applied to a possibly-`undefined` array element
(`parseInt(undefined)` is NaN). -/
def parseIntJS? (tok : Option String) : Option ℤ :=
  match tok with
  | none => none
  | some t => parseIntJS t.toList

/-- The fraction part of `parseFloat`: the digits after a leading dot, and
the unread remainder. -/
def fracOf (rest : List Char) : List Char × List Char :=
  match rest with
  | '.' :: r => (r.takeWhile Char.isDigit, r.dropWhile Char.isDigit)
  | _ => ([], rest)

/-- The exponent part of `parseFloat` (`e`/`E`, optional sign, digits); an
exponent without digits is ignored, as in JavaScript. -/
def expOf (rest2 : List Char) : ℤ :=
  match rest2 with
  | 'e' :: r | 'E' :: r =>
    match r with
    | '-' :: r2 => if r2.takeWhile Char.isDigit = [] then 0
        else -(digitsVal (r2.takeWhile Char.isDigit) : ℤ)
    | '+' :: r2 => if r2.takeWhile Char.isDigit = [] then 0
        else (digitsVal (r2.takeWhile Char.isDigit) : ℤ)
    | _ => if r.takeWhile Char.isDigit = [] then 0
        else (digitsVal (r.takeWhile Char.isDigit) : ℤ)
  | _ => 0

/-- The unsigned part of `parseFloat`: digits, an optional fraction, and an
optional exponent, reading the longest valid numeric prefix.  Returns `none`
(NaN) when no digit occurs in the integer-or-fraction part. -/
def parseFloatCore (cs : List Char) : Option ℚ :=
  let intDs := cs.takeWhile Char.isDigit
  let fr := fracOf (cs.dropWhile Char.isDigit)
  if intDs = [] ∧ fr.1 = [] then none
  else
    some (((digitsVal intDs : ℚ) + (digitsVal fr.1 : ℚ) / (10 : ℚ) ^ fr.1.length) *
      (10 : ℚ) ^ expOf fr.2)

/-- `parseFloat(tok)`: optional sign then the numeric prefix; `none` is NaN.
Trailing non-numeric characters are ignored, as in JavaScript. -/
def parseFloatJS (tok : List Char) : JsNum :=
  match tok with
  | '-' :: rest => Option.map (fun q => -q) (parseFloatCore rest)
  | '+' :: rest => parseFloatCore rest
  | _ => parseFloatCore tok

/-- `parseFloat` applied to a possibly-`undefined` array element
(`parseFloat(undefined)` is NaN). -/
def parseFloatJS? (tok : Option String) : JsNum :=
  match tok with
  | none => none
  | some t => parseFloatJS t.toList

/-- `list.slice(start, end)` with JavaScript clamping semantics (negative
indices count from the end). -/
def jsSlice {α : Type} (l : List α) (s e : ℤ) : List α :=
  let n : ℤ := l.length
  let s' : ℤ := if s < 0 then max 0 (n + s) else min s n
  let e' : ℤ := if e < 0 then max 0 (n + e) else min e n
  (l.take e'.toNat).drop s'.toNat

/-- Search model for `/Frames:\s*(\d+)/`: at each start position, try the
literal `Frames:` followed by optional whitespace and a non-empty digit run;
the captured digits are returned through `parseInt`. -/
def matchFramesAt (cs : List Char) : Option ℕ :=
  if ("Frames:".toList).isPrefixOf cs then
    let after := (cs.drop 7).dropWhile Char.isWhitespace
    let ds := after.takeWhile Char.isDigit
    if ds = [] then none else some (digitsVal ds)
  else none

/-- `line.match(/Frames:\s*(\d+)/)` followed by `parseInt(match[1])`. -/
def matchFrames : List Char → Option ℕ
  | [] => none
  | c :: cs =>
    match matchFramesAt (c :: cs) with
    | some n => some n
    | none => matchFrames cs

/-- Search model for `/Frame Time:\s*([\d.]+)/`: the captured token is a
non-empty run of digits and dots. -/
def matchFrameTimeAt (cs : List Char) : Option (List Char) :=
  if ("Frame Time:".toList).isPrefixOf cs then
    let after := (cs.drop 11).dropWhile Char.isWhitespace
    let ds := after.takeWhile (fun c => c.isDigit ∨ c = '.')
    if ds = [] then none else some ds
  else none

/-- `line.match(/Frame Time:\s*([\d.]+)/)`, returning the captured token. -/
def matchFrameTime : List Char → Option (List Char)
  | [] => none
  | c :: cs =>
    match matchFrameTimeAt (c :: cs) with
    | some t => some t
    | none => matchFrameTime cs

/-! ## The skeleton data model (`parseHierarchy`'s node objects) -/

/-- A node of the joint tree, as built by `BVHParser.parseHierarchy.parseNode`:
`{ name, type, offset, channels, children }`.  Note that for a line
`End Site` the parser sets `type = parts[0] = "End"` and
`name = parts[1] = "Site"` (the `|| 'End Site'` default only fires when
`parts[1]` is absent). -/
inductive BVHNode where
  | mk (name : String) (type : String) (offset : V3) (channels : List String)
      (children : List BVHNode)

/-- The `name` field. -/
def BVHNode.name : BVHNode → String
  | .mk n _ _ _ _ => n

/-- The `type` field. -/
def BVHNode.type : BVHNode → String
  | .mk _ t _ _ _ => t

/-- The `offset` field (each component is `parseFloat` of a token, so NaN is
possible). -/
def BVHNode.offset : BVHNode → V3
  | .mk _ _ o _ _ => o

/-- The `channels` field. -/
def BVHNode.channels : BVHNode → List String
  | .mk _ _ _ c _ => c

/-- The `children` field. -/
def BVHNode.children : BVHNode → List BVHNode
  | .mk _ _ _ _ k => k

mutual

/-- Sum of `channels.length` over a whole subtree. -/
def nodeChanSum : BVHNode → ℕ
  | .mk _ _ _ chans kids => chans.length + listChanSum kids

/-- Sum of `channels.length` over a list of subtrees. -/
def listChanSum : List BVHNode → ℕ
  | [] => 0
  | n :: ns => nodeChanSum n + listChanSum ns

end

/-- NaN-propagating integer addition, for the `totalChannels` accumulator
(`parseInt` of a malformed `CHANNELS` count is NaN and contaminates the
total). -/
def jaddI (a b : Option ℤ) : Option ℤ :=
  Option.bind a (fun x => Option.map (fun y => x + y) b)

/-! ## The hierarchy parser (`BVHParser.parseHierarchy`)

The JavaScript `parseNode` closure reads the node's declaration line and its
`{`, then runs a `while` loop over the body lines until `}` or end of input,
and finally consumes the `}` if present.  The loop and the node reader are
modelled as two fuel-indexed functions; the fuel only bounds the number of
recursive calls (each call either consumes an input line or immediately
delegates), it never changes the result when large enough. -/

mutual

/-- `parseNode(isRoot)`: reads `lines`, returns the node, its accumulated
`totalChannels`, and the remaining lines.  `none` models a thrown parse
error (end of input mid-hierarchy, or a missing `{`). -/
def parseNodeF : ℕ → Bool → List String → Option (BVHNode × Option ℤ × List String)
  | 0, _, _ => none
  | _ + 1, _, [] => none
  | fuel + 1, isRoot, line :: rest =>
    let parts := splitWs line
    -- `nodeType = parts[0]`; `nodeName = parts[1]` for the root and
    -- `parts[1] || 'End Site'` otherwise.  An absent `parts[k]` is
    -- JavaScript `undefined`; since `splitWs` never yields empty tokens the
    -- `||` default fires exactly on absence.  (An absent token on the root
    -- path would make the name `undefined`; that case is modelled as `""`
    -- and is unreachable in the inputs considered here.)
    let nodeType := parts.getD 0 ""
    let nodeName := if isRoot then parts.getD 1 "" else parts.getD 1 "End Site"
    match rest with
    | [] => none
    | l2 :: rest2 =>
      if l2 = "\x7b" then
        match parseBodyF fuel rest2 ⟨some 0, some 0, some 0⟩ [] [] (some 0) with
        | none => none
        | some (off, chans, kids, tot, rem) =>
          -- `if (lines[index] === '}') index++` — a missing closing brace at
          -- end of input is tolerated.
          let rem' := if rem.head? = some "\x7d" then rem.tail else rem
          some (⟨nodeName, nodeType, off, chans, kids⟩, tot, rem')
      else none

/-- The body `while` loop of `parseNode`: accumulates `offset`, `channels`,
`children` and the channel total until a `}` or the end of input. -/
def parseBodyF : ℕ → List String → V3 → List String → List BVHNode → Option ℤ →
    Option (V3 × List String × List BVHNode × Option ℤ × List String)
  | 0, _, _, _, _, _ => none
  | _ + 1, [], off, chans, kids, tot => some (off, chans, kids, tot, [])
  | fuel + 1, line :: rest, off, chans, kids, tot =>
    if line = "\x7d" then some (off, chans, kids, tot, line :: rest)
    else if startsWithS "OFFSET" line then
      let parts := splitWs line
      parseBodyF fuel rest
        ⟨parseFloatJS? (parts.get? 1), parseFloatJS? (parts.get? 2),
          parseFloatJS? (parts.get? 3)⟩ chans kids tot
    else if startsWithS "CHANNELS" line then
      let parts := splitWs line
      match parseIntJS? (parts.get? 1) with
      | some n => parseBodyF fuel rest off (jsSlice parts 2 (2 + n)) kids (jaddI tot (some n))
      | none =>
        -- a NaN count: `slice(2, NaN)` is `slice(2, 0)` = `[]`, and the
        -- running total becomes NaN.
        parseBodyF fuel rest off (jsSlice parts 2 0) kids none
    else if startsWithS "JOINT" line then
      match parseNodeF fuel false (line :: rest) with
      | none => none
      | some (child, ctot, rem) =>
        parseBodyF fuel rem off chans (kids ++ [child]) (jaddI tot ctot)
    else if startsWithS "End Site" line then
      match parseNodeF fuel false (line :: rest) with
      | none => none
      | some (child, ctot, rem) =>
        parseBodyF fuel rem off chans (kids ++ [child]) (jaddI tot ctot)
    else parseBodyF fuel rest off chans kids tot

end

/-! ## The motion parser (`BVHParser.parseMotion`) -/

/-- The motion block: `{frameCount, frameTime, frames}` where `frameCount`
is the realized number of frame lines read (not the declared one) and each
frame is the line's whitespace-split tokens through `parseFloat`. -/
structure MotionData where
  frameCount : ℕ
  frameTime : JsNum
  frames : List (List JsNum)
deriving DecidableEq, Repr

/-- `parseMotion(lines, startIndex)`, receiving the suffix of `lines`
starting at `startIndex`.  The frame loop `for (i = 0; i < frameCount &&
index < lines.length; i++)` reads the first `min(frameCount, remaining)`
lines. -/
def parseMotionM (lines : List String) : Option MotionData :=
  match lines with
  | [] => none
  | framesLine :: rest =>
    match matchFrames framesLine.toList with
    | none => none
    | some declaredCount =>
      match rest with
      | [] => none
      | ftLine :: dataLines =>
        match matchFrameTime ftLine.toList with
        | none => none
        | some tok =>
          let frameTime := parseFloatJS tok
          let frames := (dataLines.take declaredCount).map
            (fun l => (splitWs l).map (fun t => parseFloatJS t.toList))
          some ⟨frames.length, frameTime, frames⟩

/-! ## The top-level parser (`BVHParser.parse`) -/

/-- The result of `parse`: `{skeleton, motionData, totalChannels}`. -/
structure ParseResult where
  skeleton : BVHNode
  motionData : MotionData
  totalChannels : Option ℤ

/-- `BVHParser.parse` on the prepared (trimmed, non-empty) line list:
requires the first line to be `HIERARCHY`, parses the hierarchy from the
next line, locates the first `MOTION` line anywhere in the input and parses
the motion block after it.  The fuel `2 * lines.length + 8` exceeds the
number of parser calls any input can cause, since every call consumes an
input line or delegates once. -/
def parseBVHLines (lines : List String) : Option ParseResult :=
  match lines with
  | [] => none
  | l0 :: rest =>
    if l0 = "HIERARCHY" then
      match parseNodeF (2 * lines.length + 8) true rest with
      | none => none
      | some (skel, tot, _) =>
        match lines.findIdx? (· = "MOTION") with
        | none => none
        | some motionIndex =>
          match parseMotionM (lines.drop (motionIndex + 1)) with
          | none => none
          | some md => some ⟨skel, md, tot⟩
    else none

/-- `BVHParser.parse(content)` from the raw text. -/
def parseBVH (content : String) : Option ParseResult :=
  parseBVHLines (jsLines content)

/-! ## The bone table (`this.bones`, a JavaScript `Map`)

Modelled as an association list with `Map` semantics: `set` overwrites an
existing key in place (keeping insertion order) or appends, `get` finds the
unique entry. -/

/-- A JavaScript `Map` with string keys, as an insertion-ordered association
list without duplicate keys. -/
abbrev JsMap (α : Type) := List (String × α)

/-- `map.set(k, v)`. -/
def mapSet {α : Type} (m : JsMap α) (k : String) (v : α) : JsMap α :=
  if m.any (fun p => p.1 = k) then m.map (fun p => if p.1 = k then (k, v) else p)
  else m ++ [(k, v)]

/-- `map.get(k)` (`undefined` = `none`). -/
def mapGet {α : Type} (m : JsMap α) (k : String) : Option α :=
  (m.find? (fun p => p.1 = k)).map (fun p => p.2)

/-- The bone table: bone identifier ↦ current sphere world position.  Each
entry stands for the `{sphere, node, channels, position}` record; only the
sphere position takes part in the verified behavior. -/
abbrev Store := JsMap V3

mutual

/-- `BVHViewer.createBonesFromBVH(node, parentNode, parentPos)`: walks the
tree accumulating the bone table.  A node with channels (and a type other
than `'End Site'`) is keyed by its name; a node whose type is the string
`'End Site'` would be keyed `EndSite_<parentName>` — unreachable for
parser-produced trees, whose types are single whitespace-free tokens
(`"End"` for End Sites).  A null parent on that path would make JavaScript
throw; the model keeps the table unchanged, and the case is likewise
unreachable.  The line `boneConnections` bookkeeping is display-only and
not modelled. -/
def createBones : BVHNode → Option String → V3 → Store → Store
  | .mk name type off chans kids, parentName, parentPos, bones =>
    let pos := parentPos.addOffset ⟨off.x, off.y, off.z⟩
    let bones1 :=
      if chans.length > 0 ∧ type ≠ "End Site" then mapSet bones name pos
      else if type = "End Site" then
        match parentName with
        | some p => mapSet bones ("EndSite_" ++ p) pos
        | none => bones
      else bones
    createBonesList kids (some name) pos bones1

/-- `node.children.forEach(child => this.createBonesFromBVH(child, node, pos))`. -/
def createBonesList : List BVHNode → Option String → V3 → Store → Store
  | [], _, _, bones => bones
  | c :: cs, parentName, pos, bones =>
    createBonesList cs parentName pos (createBones c parentName pos bones)

end

/-! ## The forward-kinematics evaluator (`BVHViewer.updateFrame`) -/

/-- One iteration of the channel loop body: the six `if (channel === …)`
statements right-multiplying `local` by a translation or an axis rotation of
the channel's value (degrees for rotations).  An unrecognized channel token
leaves `local` unchanged. -/
def chanStep (t : Trig) (m : M4) (channel : String) (v : JsNum) : M4 :=
  if channel = "Xposition" then m.mul (M4.makeTranslation v (some 0) (some 0))
  else if channel = "Yposition" then m.mul (M4.makeTranslation (some 0) v (some 0))
  else if channel = "Zposition" then m.mul (M4.makeTranslation (some 0) (some 0) v)
  else if channel = "Xrotation" then m.mul (M4.makeRotationX (t.jcos v) (t.jsin v))
  else if channel = "Yrotation" then m.mul (M4.makeRotationY (t.jcos v) (t.jsin v))
  else if channel = "Zrotation" then m.mul (M4.makeRotationZ (t.jcos v) (t.jsin v))
  else m

/-- The channel loop of `updateBone`: threads the moving cursor
(`channelIndex`) through `value = frameData[channelIndex++]`.  When
`frameData` itself is `undefined` (the whole frame is missing, e.g. a
negative index into `frames`), the first element access throws a
`TypeError`, modelled by `Except.error`.  An in-bounds frame whose line was
shorter merely yields `undefined` values, i.e. NaN. -/
def applyChans (t : Trig) (fd : Option (List JsNum)) :
    List String → M4 → ℕ → Except Unit (M4 × ℕ)
  | [], m, cursor => .ok (m, cursor)
  | ch :: rest, m, cursor =>
    match fd with
    | none => .error ()
    | some vals => applyChans t fd rest (chanStep t m ch (vals.getD cursor none)) (cursor + 1)

/-- The state threaded through `updateBone`: the cursor into the frame's
flat value array, the bone table being mutated, and the `endSiteUpdates`
map collected during the walk. -/
structure UBState where
  cursor : ℕ
  bones : Store
  endSites : JsMap V3

mutual

/-- `updateBone(node, parentTransform)`: builds the local transform from the
static offset and the node's channels, composes with the parent transform,
writes the world position onto the node's existing bone entry, records an
`EndSite_<name>` update for each child whose `type` is the string
`'End Site'`, and recurses into the children in declaration order. -/
def updateBoneM (t : Trig) (fd : Option (List JsNum)) :
    BVHNode → M4 → UBState → Except Unit UBState
  | .mk name _ off chans kids, parentTransform, st =>
    match applyChans t fd chans (M4.makeTranslation off.x off.y off.z) st.cursor with
    | .error e => .error e
    | .ok (localM, cursor') =>
      let world := M4.mul parentTransform localM
      let pos := world.position
      -- `if (boneData && boneData.sphere)`: only an existing entry is updated
      let bones' := if (mapGet st.bones name).isSome then mapSet st.bones name pos else st.bones
      let es' := kids.foldl
        (fun es c =>
          if c.type = "End Site" then
            mapSet es ("EndSite_" ++ name) (pos.addOffset c.offset)
          else es)
        st.endSites
      updateBoneListM t fd kids world ⟨cursor', bones', es'⟩

/-- `node.children.forEach(child => updateBone(child, world))`. -/
def updateBoneListM (t : Trig) (fd : Option (List JsNum)) :
    List BVHNode → M4 → UBState → Except Unit UBState
  | [], _, st => .ok st
  | c :: cs, world, st =>
    match updateBoneM t fd c world st with
    | .error e => .error e
    | .ok st' => updateBoneListM t fd cs world st'

end

/-- `BVHViewer.updateFrame(frameIndex)`: no-op when no motion data is loaded
or `frameIndex >= frames.length`; otherwise evaluates the skeleton against
`frames[frameIndex]` (which is `undefined` for a negative index) and then
applies the collected `endSiteUpdates` onto existing bone entries.
`updateSkeletonLines` only refreshes display geometry and is not modelled. -/
def updateFrameM (t : Trig) (motionData : Option MotionData) (skeleton : BVHNode)
    (frameIndex : ℤ) (bones : Store) : Except Unit Store :=
  match motionData with
  | none => .ok bones
  | some md =>
    if frameIndex ≥ (md.frames.length : ℤ) then .ok bones
    else
      let fd : Option (List JsNum) :=
        if 0 ≤ frameIndex then some (md.frames.getD frameIndex.toNat []) else none
      match updateBoneM t fd skeleton M4.id4 ⟨0, bones, []⟩ with
      | .error e => .error e
      | .ok st =>
        .ok (st.endSites.foldl
          (fun b p => if (mapGet b p.1).isSome then mapSet b p.1 p.2 else b) st.bones)

/-! ## The normalizer (`BVHViewer.normalizeSkeletonScale`) -/

/-- The foot/toe/leg joint-name candidates of `findLowestFootPosition`. -/
def footBoneNames : List String :=
  ["LeftFoot", "RightFoot", "LeftToes", "RightToes",
   "L_Foot", "R_Foot", "L_Toe", "R_Toe",
   "left_foot", "right_foot", "left_toe", "right_toe",
   "LeftUpperLeg", "RightUpperLeg", "LeftLowerLeg", "RightLowerLeg"]

/-- The End-Site name candidates of `findLowestFootPosition`. -/
def footEndSiteNames : List String :=
  ["EndSite_LeftFoot", "EndSite_RightFoot", "EndSite_LeftToes", "EndSite_RightToes",
   "EndSite_L_Foot", "EndSite_R_Foot", "EndSite_L_Toe", "EndSite_R_Toe",
   "EndSite_left_foot", "EndSite_right_foot", "EndSite_left_toe", "EndSite_right_toe"]

/-- `BVHViewer.findHeadPosition()`: the `Head` bone's position, else `Neck`,
else null. -/
def findHeadPositionM (bones : Store) : Option V3 :=
  match mapGet bones "Head" with
  | some p => some p
  | none => mapGet bones "Neck"

/-- One comparison step `if (bone.sphere.position.y < lowestY)`.  `lowestY`
starts at `Infinity` and is only ever replaced by a non-NaN value (a NaN `y`
fails every `<`), so the running best is `none` (still `Infinity`) or a
rational together with its position. -/
def lowerCand (best : Option (ℚ × V3)) (pos : V3) : Option (ℚ × V3) :=
  match pos.y with
  | none => best
  | some q =>
    match best with
    | none => some (q, pos)
    | some (b, bp) => if q < b then some (q, pos) else some (b, bp)

/-- `names.forEach(...)` over candidate bone names: missing names are
skipped. -/
def scanNames (bones : Store) (names : List String) (best : Option (ℚ × V3)) :
    Option (ℚ × V3) :=
  names.foldl
    (fun b n =>
      match mapGet bones n with
      | some p => lowerCand b p
      | none => b)
    best

/-- `BVHViewer.findLowestFootPosition()`: scan the joint-name candidates,
then the End-Site name candidates, and if nothing matched fall back to the
lowest `y` among all bones (in `Map` insertion order). -/
def findLowestFootPositionM (bones : Store) : Option V3 :=
  let best := scanNames bones footEndSiteNames (scanNames bones footBoneNames none)
  match best with
  | some (_, p) => some p
  | none => (bones.foldl (fun b p => lowerCand b p.2) none).map (fun q => q.2)

/-- `BVHViewer.normalizeSkeletonScale()`, reduced to its outputs: the
uniform group scale and the group's vertical position
(`position.set(0, -scaledFootY - 40, 0)`).  `none` means the
`fallbackScaling` bounding-box path was taken (head/foot unresolved or
`bodyHeight <= 1`); that path only touches display geometry and is not
modelled further. -/
def normalizeSkeletonScaleM (bones : Store) : Option (JsNum × JsNum) :=
  match findHeadPositionM bones, findLowestFootPositionM bones with
  | some head, some foot =>
    let bodyHeight := head.y - foot.y
    if JsNum.le bodyHeight (some 1) then none
    else
      let scale := JsNum.div (some 160) bodyHeight
      let scaledFootY := foot.y * scale
      some (scale, -scaledFootY - some 40)
  | _, _ => none

/-! ## Valid hierarchy texts

“Valid hierarchy text” is formalized as the family of texts printed from a
grammar tree (`PTree`) of the §6 input format: every structural line of such
a text is a space-joined list of whitespace-free tokens.  The lemmas below
show that the line tokenizer recovers exactly those tokens. -/

/-- A token: a non-empty string without whitespace characters. -/
def isTok (s : String) : Bool :=
  !s.data.isEmpty && s.data.all (fun c => ¬ c.isWhitespace)

/-- Join tokens with single spaces (the shape of every structural line of
the input format). -/
def joinSp : List String → String
  | [] => ""
  | [t] => t
  | t :: t2 :: ts => t ++ " " ++ joinSp (t2 :: ts)

theorem wsSplitAux_token (tk rest acc : List Char)
    (h : ∀ c ∈ tk, ¬ c.isWhitespace) :
    wsSplitAux (tk ++ rest) acc = wsSplitAux rest (tk.reverse ++ acc) := by
  induction tk generalizing acc with
  | nil => simp
  | cons c cs ih =>
    have hc : ¬ c.isWhitespace := h c (by simp)
    have hcs : ∀ d ∈ cs, ¬ d.isWhitespace := fun d hd => h d (by simp [hd])
    show wsSplitAux (c :: (cs ++ rest)) acc = _
    rw [wsSplitAux]
    simp only [hc, if_false, Bool.false_eq_true, ite_false]
    rw [ih (c :: acc) hcs]
    simp

/-- Splitting a single token. -/
theorem wsSplit_token (tk : List Char) (h1 : tk ≠ [])
    (h2 : ∀ c ∈ tk, ¬ c.isWhitespace) : wsSplit tk = [tk] := by
  have h := wsSplitAux_token tk [] [] h2
  rw [List.append_nil] at h
  unfold wsSplit
  rw [h, wsSplitAux]
  simp [h1]

/-- Splitting a token followed by a space and more text. -/
theorem wsSplit_token_space (tk rest : List Char) (h1 : tk ≠ [])
    (h2 : ∀ c ∈ tk, ¬ c.isWhitespace) :
    wsSplit (tk ++ ' ' :: rest) = tk :: wsSplit rest := by
  have h := wsSplitAux_token tk (' ' :: rest) [] h2
  unfold wsSplit
  rw [h, wsSplitAux]
  simp [h1]

theorem isTok_iff (s : String) :
    isTok s = true ↔ s.data ≠ [] ∧ ∀ c ∈ s.data, ¬ c.isWhitespace := by
  simp [isTok, List.isEmpty_iff]

/-- The tokenizer recovers the tokens of a space-joined line. -/
theorem splitWs_joinSp (ts : List String) (h : ∀ t ∈ ts, isTok t = true) :
    splitWs (joinSp ts) = ts := by
  induction ts with
  | nil =>
    rfl
  | cons t ts ih =>
    have ht := (isTok_iff t).mp (h t (by simp))
    cases ts with
    | nil =>
      show (wsSplit (joinSp [t]).toList).map _ = _
      have : (joinSp [t]).toList = t.data := rfl
      rw [this, wsSplit_token t.data ht.1 ht.2]
      simp
    | cons t2 ts2 =>
      show (wsSplit (joinSp (t :: t2 :: ts2)).toList).map _ = _
      have hdata : (joinSp (t :: t2 :: ts2)).toList =
          t.data ++ ' ' :: (joinSp (t2 :: ts2)).toList := by
        show (t ++ " " ++ joinSp (t2 :: ts2)).data = _
        rw [String.data_append, String.data_append]
        simp
      rw [hdata, wsSplit_token_space t.data _ ht.1 ht.2]
      have ih2 := ih (fun u hu => h u (by simp [hu]))
      unfold splitWs at ih2
      simp only [List.map_cons, ih2]

/-- `startsWith` holds for the keyword opening its own line. -/
theorem startsWithS_joinSp (kw : String) (ts : List String) :
    startsWithS kw (joinSp (kw :: ts)) = true := by
  cases ts with
  | nil =>
    show kw.toList.isPrefixOf (joinSp [kw]).toList = true
    have : (joinSp [kw]).toList = kw.toList := rfl
    rw [this]
    exact List.isPrefixOf_iff_prefix.mpr (List.prefix_refl _)
  | cons t2 ts2 =>
    show kw.toList.isPrefixOf (joinSp (kw :: t2 :: ts2)).toList = true
    have : (joinSp (kw :: t2 :: ts2)).toList =
        kw.data ++ ' ' :: (joinSp (t2 :: ts2)).toList := by
      show (kw ++ " " ++ joinSp (t2 :: ts2)).data = _
      rw [String.data_append, String.data_append]
      simp
    rw [this]
    exact List.isPrefixOf_iff_prefix.mpr (List.prefix_append _ _)

/-- `startsWith` fails when the first characters differ. -/
theorem startsWithS_false (pre s : String) (c1 c2 : Char)
    (hp : pre.data.head? = some c1) (hs : s.data.head? = some c2) (h : c1 ≠ c2) :
    startsWithS pre s = false := by
  show pre.data.isPrefixOf s.data = false
  cases hpre : pre.data with
  | nil => simp [hpre] at hp
  | cons a as =>
    cases hss : s.data with
    | nil => simp [hss] at hs
    | cons b bs =>
      simp only [hpre, Option.some.injEq, List.head?] at hp
      simp only [hss, Option.some.injEq, List.head?] at hs
      subst hp; subst hs
      simp [List.isPrefixOf, h]

/-- The head character of a space-joined line is that of its first token. -/
theorem joinSp_head (t : String) (ts : List String) (c : Char)
    (h : t.data.head? = some c) : (joinSp (t :: ts)).data.head? = some c := by
  cases ts with
  | nil => exact h
  | cons t2 ts2 =>
    have hd : (joinSp (t :: t2 :: ts2)).data = t.data ++ ' ' :: (joinSp (t2 :: ts2)).data := by
      show (t ++ " " ++ joinSp (t2 :: ts2)).data = _
      rw [String.data_append, String.data_append]
      simp
    rw [hd]
    cases ht : t.data with
    | nil => simp [ht] at h
    | cons a as =>
      simp only [ht, List.head?, Option.some.injEq] at h
      simp [ht, List.head?, h]

/-- Two strings with different head characters differ. -/
theorem ne_of_head (s r : String) (c1 c2 : Char)
    (h1 : s.data.head? = some c1) (h2 : r.data.head? = some c2) (h : c1 ≠ c2) :
    s ≠ r := by
  intro he
  rw [he] at h1
  rw [h1] at h2
  exact h (by injection h2)

/-- `parts.slice(2, 2 + n)` on a parts array of exactly `2 + n` elements is
the suffix after the first two. -/
theorem jsSlice_suffix {α : Type} (l : List α) (n : ℕ) (h : l.length = 2 + n) :
    jsSlice l 2 (2 + (n : ℤ)) = l.drop 2 := by
  unfold jsSlice
  have h2 : ¬ ((2 : ℤ) < 0) := by omega
  have h3 : ¬ ((2 + (n : ℤ)) < 0) := by omega
  simp only [h2, h3, if_false, h]
  have e1 : min (2 : ℤ) ((2 + n : ℕ) : ℤ) = 2 := by push_cast; omega
  have e2 : min (2 + (n : ℤ)) ((2 + n : ℕ) : ℤ) = 2 + n := by push_cast; omega
  rw [e1, e2]
  have e3 : ((2 + (n : ℤ)).toNat) = 2 + n := by omega
  rw [e3]
  rw [List.take_of_length_le (by omega)]
  rfl

/-- A grammar tree of the §6 hierarchy format.  `node` carries the joint
name, the three offset tokens, the channel-count token and the channel
tokens; `stop` is an `End Site` leaf with its offset tokens.  Printing a
`PTree` (below) yields exactly the well-formed hierarchy texts. -/
inductive PTree where
  | node (name o1 o2 o3 cnt : String) (chans : List String) (kids : List PTree)
  | stop (o1 o2 o3 : String)

mutual

/-- The lines of the hierarchy text denoted by a `PTree`. -/
def printPT : Bool → PTree → List String
  | isRoot, .node name _o1 _o2 _o3 cnt chans kids =>
    joinSp [(if isRoot then "ROOT" else "JOINT"), name] :: "\x7b" ::
      joinSp ["OFFSET", _o1, _o2, _o3] ::
      joinSp ("CHANNELS" :: cnt :: chans) ::
      (printPTList kids ++ ["\x7d"])
  | _, .stop o1 o2 o3 => ["End Site", "\x7b", joinSp ["OFFSET", o1, o2, o3], "\x7d"]

/-- The lines of a sequence of sibling subtrees. -/
def printPTList : List PTree → List String
  | [] => []
  | t :: ts => printPT false t ++ printPTList ts

end

mutual

/-- The node object the parser builds from the printed text of a `PTree`.
For an `End Site` block the declaration line `End Site` splits into
`["End", "Site"]`, so the node gets `type = "End"` and `name = "Site"`. -/
def toNodePT : Bool → PTree → BVHNode
  | isRoot, .node name o1 o2 o3 _ chans kids =>
    .mk name (if isRoot then "ROOT" else "JOINT")
      ⟨parseFloatJS o1.data, parseFloatJS o2.data, parseFloatJS o3.data⟩ chans
      (toNodePTList kids)
  | _, .stop o1 o2 o3 =>
    .mk "Site" "End" ⟨parseFloatJS o1.data, parseFloatJS o2.data, parseFloatJS o3.data⟩ [] []

/-- `toNodePT` on siblings. -/
def toNodePTList : List PTree → List BVHNode
  | [] => []
  | t :: ts => toNodePT false t :: toNodePTList ts

end

mutual

/-- Declared channel total of a `PTree` (End Sites declare none). -/
def ptChanSum : PTree → ℕ
  | .node _ _ _ _ _ chans kids => chans.length + ptChanSumList kids
  | .stop _ _ _ => 0

/-- Channel total of a sequence of siblings. -/
def ptChanSumList : List PTree → ℕ
  | [] => 0
  | t :: ts => ptChanSum t + ptChanSumList ts

end

mutual

/-- Well-formedness of a `PTree`: every name/offset/channel piece is a
token, and the channel-count token parses (by `parseInt`) to the number of
channel tokens — exactly the shape of a valid hierarchy text. -/
def wfPT : PTree → Bool
  | .node name o1 o2 o3 cnt chans kids =>
    isTok name && isTok o1 && isTok o2 && isTok o3 && isTok cnt &&
      chans.all isTok && (parseIntJS cnt.data == some (chans.length : ℤ)) && wfPTList kids
  | .stop o1 o2 o3 => isTok o1 && isTok o2 && isTok o3

/-- Well-formedness of a sequence of siblings. -/
def wfPTList : List PTree → Bool
  | [] => true
  | t :: ts => wfPT t && wfPTList ts

end

mutual

/-- An upper bound on the parser fuel a printed subtree needs: one call for
the node reader plus one per body line, children counted recursively. -/
def ptFuel : PTree → ℕ
  | .node _ _ _ _ _ _ kids => 3 + ptFuelList kids
  | .stop _ _ _ => 3

/-- Fuel bound for a sibling segment followed by its closing `}`. -/
def ptFuelList : List PTree → ℕ
  | [] => 1
  | t :: ts => 1 + ptFuel t + ptFuelList ts

end

/-- `totalChannels` accumulation is associative over `jaddI`. -/
theorem jaddI_some_zero (a : Option ℤ) : jaddI a (some 0) = a := by
  cases a <;> simp [jaddI]

theorem jaddI_assoc_some (a : Option ℤ) (x y : ℤ) :
    jaddI (jaddI a (some x)) (some y) = jaddI a (some (x + y)) := by
  cases a
  · simp [jaddI]
  · simp [jaddI]
    ring

/-! ### Step lemmas: how the parser consumes each kind of printed line -/

theorem head_joinSp_ROOT (name : String) :
    (joinSp ["ROOT", name]).data.head? = some 'R' :=
  joinSp_head "ROOT" [name] 'R' rfl

theorem head_joinSp_JOINT (name : String) :
    (joinSp ["JOINT", name]).data.head? = some 'J' :=
  joinSp_head "JOINT" [name] 'J' rfl

theorem head_joinSp_OFFSET (o1 o2 o3 : String) :
    (joinSp ["OFFSET", o1, o2, o3]).data.head? = some 'O' :=
  joinSp_head "OFFSET" [o1, o2, o3] 'O' rfl

theorem head_joinSp_CHANNELS (cnt : String) (chans : List String) :
    (joinSp ("CHANNELS" :: cnt :: chans)).data.head? = some 'C' :=
  joinSp_head "CHANNELS" (cnt :: chans) 'C' rfl

/-- The body loop consumes an `OFFSET` line. -/
theorem parseBodyF_step_offset (f : ℕ) (o1 o2 o3 : String) (lines : List String)
    (off : V3) (chans : List String) (kids : List BVHNode) (tot : Option ℤ)
    (h1 : isTok o1 = true) (h2 : isTok o2 = true) (h3 : isTok o3 = true) :
    parseBodyF (f + 1) (joinSp ["OFFSET", o1, o2, o3] :: lines) off chans kids tot =
      parseBodyF f lines
        ⟨parseFloatJS o1.data, parseFloatJS o2.data, parseFloatJS o3.data⟩ chans kids tot := by
  have hne : joinSp ["OFFSET", o1, o2, o3] ≠ "\x7d" :=
    ne_of_head _ _ 'O' '}' (head_joinSp_OFFSET o1 o2 o3) rfl (by decide)
  have hsw : startsWithS "OFFSET" (joinSp ["OFFSET", o1, o2, o3]) = true :=
    startsWithS_joinSp "OFFSET" [o1, o2, o3]
  have hsp : splitWs (joinSp ["OFFSET", o1, o2, o3]) = ["OFFSET", o1, o2, o3] :=
    splitWs_joinSp _ (by
      intro t ht
      simp only [List.mem_cons, List.not_mem_nil, or_false] at ht
      rcases ht with h | h | h | h <;> subst h
      · decide
      · exact h1
      · exact h2
      · exact h3)
  rw [parseBodyF]
  simp only [hne, if_neg, ite_false, hsw, if_pos, ite_true, hsp]
  rfl

/-- The body loop consumes a `CHANNELS` line whose count token parses to the
number of channel tokens. -/
theorem parseBodyF_step_channels (f : ℕ) (cnt : String) (newChans : List String)
    (lines : List String) (off : V3) (chans : List String) (kids : List BVHNode)
    (tot : Option ℤ) (hcnt : isTok cnt = true) (hch : newChans.all isTok = true)
    (hp : parseIntJS cnt.data = some (newChans.length : ℤ)) :
    parseBodyF (f + 1) (joinSp ("CHANNELS" :: cnt :: newChans) :: lines) off chans kids tot =
      parseBodyF f lines off newChans kids (jaddI tot (some (newChans.length : ℤ))) := by
  have hne : joinSp ("CHANNELS" :: cnt :: newChans) ≠ "\x7d" :=
    ne_of_head _ _ 'C' '}' (head_joinSp_CHANNELS cnt newChans) rfl (by decide)
  have hswo : startsWithS "OFFSET" (joinSp ("CHANNELS" :: cnt :: newChans)) = false :=
    startsWithS_false _ _ 'O' 'C' rfl (head_joinSp_CHANNELS cnt newChans) (by decide)
  have hsw : startsWithS "CHANNELS" (joinSp ("CHANNELS" :: cnt :: newChans)) = true :=
    startsWithS_joinSp "CHANNELS" (cnt :: newChans)
  have hsp : splitWs (joinSp ("CHANNELS" :: cnt :: newChans)) = "CHANNELS" :: cnt :: newChans :=
    splitWs_joinSp _ (by
      intro t ht
      simp only [List.mem_cons] at ht
      rcases ht with h | h | h
      · subst h; decide
      · subst h; exact hcnt
      · exact List.all_eq_true.mp hch t h)
  have hslice : jsSlice ("CHANNELS" :: cnt :: newChans) 2 (2 + (newChans.length : ℤ)) =
      newChans := by
    have := jsSlice_suffix ("CHANNELS" :: cnt :: newChans) newChans.length
      (by simp; omega)
    simpa using this
  rw [parseBodyF]
  simp only [hne, if_neg, ite_false, hswo, Bool.false_eq_true, hsw, if_pos, ite_true, hsp]
  show (match parseIntJS? (("CHANNELS" :: cnt :: newChans).get? 1) with
    | some n => parseBodyF f lines off
        (jsSlice ("CHANNELS" :: cnt :: newChans) 2 (2 + n)) kids (jaddI tot (some n))
    | none => parseBodyF f lines off
        (jsSlice ("CHANNELS" :: cnt :: newChans) 2 0) kids none) = _
  have : parseIntJS? (("CHANNELS" :: cnt :: newChans).get? 1) = some (newChans.length : ℤ) := by
    simp [parseIntJS?, hp]
  rw [this]
  simp only [hslice]

/-- The body loop returns at a closing brace without consuming it. -/
theorem parseBodyF_step_brace (f : ℕ) (lines : List String) (off : V3)
    (chans : List String) (kids : List BVHNode) (tot : Option ℤ) :
    parseBodyF (f + 1) ("\x7d" :: lines) off chans kids tot =
      some (off, chans, kids, tot, "\x7d" :: lines) := by
  rw [parseBodyF]
  simp

/-- The body loop dispatches a `JOINT` line to the node reader. -/
theorem parseBodyF_step_joint (f : ℕ) (name : String) (lines : List String)
    (off : V3) (chans : List String) (kids : List BVHNode) (tot : Option ℤ)
    (child : BVHNode) (ctot : Option ℤ) (rem : List String)
    (hnode : parseNodeF f false (joinSp ["JOINT", name] :: lines) = some (child, ctot, rem)) :
    parseBodyF (f + 1) (joinSp ["JOINT", name] :: lines) off chans kids tot =
      parseBodyF f rem off chans (kids ++ [child]) (jaddI tot ctot) := by
  have hne : joinSp ["JOINT", name] ≠ "\x7d" :=
    ne_of_head _ _ 'J' '}' (head_joinSp_JOINT name) rfl (by decide)
  have hswo : startsWithS "OFFSET" (joinSp ["JOINT", name]) = false :=
    startsWithS_false _ _ 'O' 'J' rfl (head_joinSp_JOINT name) (by decide)
  have hswc : startsWithS "CHANNELS" (joinSp ["JOINT", name]) = false :=
    startsWithS_false _ _ 'C' 'J' rfl (head_joinSp_JOINT name) (by decide)
  have hsw : startsWithS "JOINT" (joinSp ["JOINT", name]) = true :=
    startsWithS_joinSp "JOINT" [name]
  rw [parseBodyF]
  simp only [hne, if_neg, ite_false, hswo, Bool.false_eq_true, hswc, hsw, if_pos, ite_true,
    hnode]

/-- The body loop dispatches an `End Site` line to the node reader. -/
theorem parseBodyF_step_endsite (f : ℕ) (lines : List String)
    (off : V3) (chans : List String) (kids : List BVHNode) (tot : Option ℤ)
    (child : BVHNode) (ctot : Option ℤ) (rem : List String)
    (hnode : parseNodeF f false ("End Site" :: lines) = some (child, ctot, rem)) :
    parseBodyF (f + 1) ("End Site" :: lines) off chans kids tot =
      parseBodyF f rem off chans (kids ++ [child]) (jaddI tot ctot) := by
  rw [parseBodyF]
  simp only [show ("End Site" : String) ≠ "\x7d" from by decide, if_neg, ite_false,
    show startsWithS "OFFSET" "End Site" = false from by decide, Bool.false_eq_true,
    show startsWithS "CHANNELS" "End Site" = false from by decide,
    show startsWithS "JOINT" "End Site" = false from by decide,
    show startsWithS "End Site" "End Site" = true from by decide, if_pos, ite_true, hnode]

/-- The node reader on a printed `ROOT`/`JOINT` declaration line. -/
theorem parseNodeF_step (f : ℕ) (isRoot : Bool) (kw name : String) (body : List String)
    (hkw : kw = (if isRoot then "ROOT" else "JOINT")) (hname : isTok name = true)
    (off : V3) (chans : List String) (kids : List BVHNode) (tot : Option ℤ)
    (rem : List String)
    (hbody : parseBodyF f body ⟨some 0, some 0, some 0⟩ [] [] (some 0) =
      some (off, chans, kids, tot, rem)) :
    parseNodeF (f + 1) isRoot (joinSp [kw, name] :: "\x7b" :: body) =
      some (⟨name, kw, off, chans, kids⟩, tot,
        if rem.head? = some "\x7d" then rem.tail else rem) := by
  have hsp : splitWs (joinSp [kw, name]) = [kw, name] :=
    splitWs_joinSp _ (by
      intro t ht
      simp only [List.mem_cons, List.not_mem_nil, or_false] at ht
      rcases ht with h | h <;> subst h
      · cases isRoot <;> simp [hkw] <;> decide
      · exact hname)
  rw [parseNodeF]
  simp only [hsp]
  have hgd : ([kw, name].getD 1 "" : String) = name := rfl
  have hgd2 : ([kw, name].getD 1 "End Site" : String) = name := rfl
  have hgd0 : ([kw, name].getD 0 "" : String) = kw := rfl
  simp only [hgd, hgd2, hgd0, if_pos, hbody]
  cases isRoot <;> simp

/-- The node reader on an `End Site` declaration line: the node is typed
`"End"` and named `"Site"`. -/
theorem parseNodeF_step_endsite (f : ℕ) (isRoot : Bool) (body : List String)
    (off : V3) (chans : List String) (kids : List BVHNode) (tot : Option ℤ)
    (rem : List String)
    (hbody : parseBodyF f body ⟨some 0, some 0, some 0⟩ [] [] (some 0) =
      some (off, chans, kids, tot, rem)) :
    parseNodeF (f + 1) isRoot ("End Site" :: "\x7b" :: body) =
      some (⟨"Site", "End", off, chans, kids⟩, tot,
        if rem.head? = some "\x7d" then rem.tail else rem) := by
  rw [parseNodeF]
  have hsp : splitWs ("End Site" : String) = ["End", "Site"] := by decide
  simp only [hsp, hbody]
  cases isRoot <;> simp

mutual

/-- Round trip: the hierarchy parser, run on the printed text of a
well-formed grammar tree followed by any remaining lines, succeeds and
returns exactly the interpreted node, the declared channel total, and the
untouched remaining lines. -/
theorem parseNodeF_print (t : PTree) (isRoot : Bool) (rest : List String) (fuel : ℕ)
    (hwf : wfPT t = true) (hfuel : ptFuel t ≤ fuel) :
    parseNodeF fuel isRoot (printPT isRoot t ++ rest) =
      some (toNodePT isRoot t, some ((ptChanSum t : ℕ) : ℤ), rest) := by
  cases t with
  | node name o1 o2 o3 cnt chans kids =>
    simp only [wfPT, Bool.and_eq_true, beq_iff_eq] at hwf
    obtain ⟨⟨⟨⟨⟨⟨⟨hname, ho1⟩, ho2⟩, ho3⟩, hcnt⟩, hchans⟩, hcp⟩, hkids⟩ := hwf
    simp only [ptFuel] at hfuel
    obtain ⟨f, rfl⟩ : ∃ f, fuel = f + 1 := ⟨fuel - 1, by omega⟩
    obtain ⟨f1, rfl⟩ : ∃ f1, f = f1 + 1 := ⟨f - 1, by omega⟩
    obtain ⟨f2, rfl⟩ : ∃ f2, f1 = f2 + 1 := ⟨f1 - 1, by omega⟩
    have hprint : printPT isRoot (.node name o1 o2 o3 cnt chans kids) ++ rest =
        joinSp [(if isRoot then "ROOT" else "JOINT"), name] :: "\x7b" ::
          (joinSp ["OFFSET", o1, o2, o3] :: joinSp ("CHANNELS" :: cnt :: chans) ::
            (printPTList kids ++ "\x7d" :: rest)) := by
      simp [printPT]
    have hbody : parseBodyF (f2 + 1 + 1)
        (joinSp ["OFFSET", o1, o2, o3] :: joinSp ("CHANNELS" :: cnt :: chans) ::
          (printPTList kids ++ "\x7d" :: rest))
        ⟨some 0, some 0, some 0⟩ [] [] (some 0) =
        some (⟨parseFloatJS o1.data, parseFloatJS o2.data, parseFloatJS o3.data⟩,
          chans, toNodePTList kids,
          some ((ptChanSum (.node name o1 o2 o3 cnt chans kids) : ℕ) : ℤ),
          "\x7d" :: rest) := by
      rw [parseBodyF_step_offset f2.succ o1 o2 o3 _ _ _ _ _ ho1 ho2 ho3]
      rw [parseBodyF_step_channels f2 cnt chans _ _ _ _ _ hcnt hchans hcp]
      rw [parseBodyF_print kids rest f2 _ chans [] _ hkids (by omega)]
      simp only [List.nil_append, ptChanSum]
      have h : jaddI (jaddI (some 0) (some (chans.length : ℤ)))
          (some ((ptChanSumList kids : ℕ) : ℤ)) =
          some ((chans.length + ptChanSumList kids : ℕ) : ℤ) := by
        simp [jaddI]
      rw [h]
    rw [hprint, parseNodeF_step (f2 + 1 + 1) isRoot _ name _ rfl hname _ _ _ _ _ hbody]
    simp [toNodePT]
  | stop o1 o2 o3 =>
    simp only [wfPT, Bool.and_eq_true] at hwf
    obtain ⟨⟨ho1, ho2⟩, ho3⟩ := hwf
    simp only [ptFuel] at hfuel
    obtain ⟨f, rfl⟩ : ∃ f, fuel = f + 1 := ⟨fuel - 1, by omega⟩
    obtain ⟨f1, rfl⟩ : ∃ f1, f = f1 + 1 := ⟨f - 1, by omega⟩
    obtain ⟨f2, rfl⟩ : ∃ f2, f1 = f2 + 1 := ⟨f1 - 1, by omega⟩
    have hprint : printPT isRoot (.stop o1 o2 o3) ++ rest =
        "End Site" :: "\x7b" :: (joinSp ["OFFSET", o1, o2, o3] :: ("\x7d" :: rest)) := by
      simp [printPT]
    have hbody : parseBodyF (f2 + 1 + 1)
        (joinSp ["OFFSET", o1, o2, o3] :: ("\x7d" :: rest))
        ⟨some 0, some 0, some 0⟩ [] [] (some 0) =
        some (⟨parseFloatJS o1.data, parseFloatJS o2.data, parseFloatJS o3.data⟩,
          [], [], some 0, "\x7d" :: rest) := by
      rw [parseBodyF_step_offset f2.succ o1 o2 o3 _ _ _ _ _ ho1 ho2 ho3]
      rw [parseBodyF_step_brace f2 rest]
    rw [hprint, parseNodeF_step_endsite (f2 + 1 + 1) isRoot _ _ _ _ _ _ hbody]
    simp [toNodePT, ptChanSum]

/-- Round trip for a sibling segment: the body loop consumes the printed
siblings and halts at the closing brace. -/
theorem parseBodyF_print (ts : List PTree) (rest : List String) (fuel : ℕ)
    (off : V3) (chans : List String) (kids : List BVHNode) (tot : Option ℤ)
    (hwf : wfPTList ts = true) (hfuel : ptFuelList ts ≤ fuel) :
    parseBodyF fuel (printPTList ts ++ "\x7d" :: rest) off chans kids tot =
      some (off, chans, kids ++ toNodePTList ts,
        jaddI tot (some ((ptChanSumList ts : ℕ) : ℤ)), "\x7d" :: rest) := by
  cases ts with
  | nil =>
    simp only [ptFuelList] at hfuel
    obtain ⟨f, rfl⟩ : ∃ f, fuel = f + 1 := ⟨fuel - 1, by omega⟩
    show parseBodyF (f + 1) ("\x7d" :: rest) off chans kids tot = _
    rw [parseBodyF_step_brace]
    simp [toNodePTList, ptChanSumList, jaddI_some_zero]
  | cons t ts2 =>
    simp only [wfPTList, Bool.and_eq_true] at hwf
    obtain ⟨hwt, hwts⟩ := hwf
    simp only [ptFuelList] at hfuel
    obtain ⟨f, rfl⟩ : ∃ f, fuel = f + 1 := ⟨fuel - 1, by omega⟩
    have hlines : printPTList (t :: ts2) ++ "\x7d" :: rest =
        printPT false t ++ (printPTList ts2 ++ "\x7d" :: rest) := by
      simp [printPTList]
    rw [hlines]
    have hnode := parseNodeF_print t false (printPTList ts2 ++ "\x7d" :: rest) f hwt (by omega)
    have hrest := parseBodyF_print ts2 rest f off chans
      (kids ++ [toNodePT false t])
      (jaddI tot (some ((ptChanSum t : ℕ) : ℤ))) hwts (by omega)
    have hsum : jaddI (jaddI tot (some ((ptChanSum t : ℕ) : ℤ)))
        (some ((ptChanSumList ts2 : ℕ) : ℤ)) =
        jaddI tot (some ((ptChanSumList (t :: ts2) : ℕ) : ℤ)) := by
      rw [jaddI_assoc_some]
      simp only [ptChanSumList]
      push_cast
      ring_nf
    have happ : (kids ++ [toNodePT false t]) ++ toNodePTList ts2 =
        kids ++ toNodePTList (t :: ts2) := by
      simp [toNodePTList]
    cases t with
    | node name o1 o2 o3 cnt chans2 kids2 =>
      have hhead : printPT false (.node name o1 o2 o3 cnt chans2 kids2) ++
          (printPTList ts2 ++ "\x7d" :: rest) =
          joinSp ["JOINT", name] :: ("\x7b" :: (joinSp ["OFFSET", o1, o2, o3] ::
            joinSp ("CHANNELS" :: cnt :: chans2) ::
            (printPTList kids2 ++ "\x7d" :: (printPTList ts2 ++ "\x7d" :: rest)))) := by
        simp [printPT]
      rw [hhead] at hnode ⊢
      rw [parseBodyF_step_joint f name _ off chans kids tot _ _ _ hnode]
      rw [hrest, hsum, happ]
    | stop o1 o2 o3 =>
      have hhead : printPT false (.stop o1 o2 o3) ++ (printPTList ts2 ++ "\x7d" :: rest) =
          "End Site" :: ("\x7b" :: (joinSp ["OFFSET", o1, o2, o3] ::
            ("\x7d" :: (printPTList ts2 ++ "\x7d" :: rest)))) := by
        simp [printPT]
      rw [hhead] at hnode ⊢
      rw [parseBodyF_step_endsite f _ off chans kids tot _ _ _ hnode]
      rw [hrest, hsum, happ]

end

/-! ### Assembling a full document: hierarchy, `MOTION`, motion block -/

mutual

/-- No printed hierarchy line is the `MOTION` separator (every printed line
starts with `R`, `J`, `E`, `O`, `C`, `{` or `}`). -/
theorem printPT_ne_MOTION (t : PTree) (isRoot : Bool) :
    ∀ l ∈ printPT isRoot t, l ≠ "MOTION" := by
  cases t with
  | node name o1 o2 o3 cnt chans kids =>
    intro l hl
    simp only [printPT, List.mem_cons, List.mem_append, List.mem_singleton,
      List.not_mem_nil, or_false] at hl
    rcases hl with h | h | h | h | h | h
    · subst h
      cases isRoot with
      | true => exact ne_of_head _ _ 'R' 'M' (by simpa using head_joinSp_ROOT name) rfl (by decide)
      | false => exact ne_of_head _ _ 'J' 'M' (by simpa using head_joinSp_JOINT name) rfl (by decide)
    · subst h; decide
    · subst h
      exact ne_of_head _ _ 'O' 'M' (head_joinSp_OFFSET o1 o2 o3) rfl (by decide)
    · subst h
      exact ne_of_head _ _ 'C' 'M' (head_joinSp_CHANNELS cnt chans) rfl (by decide)
    · exact printPTList_ne_MOTION kids l h
    · subst h; decide
  | stop o1 o2 o3 =>
    intro l hl
    simp only [printPT, List.mem_cons, List.not_mem_nil, or_false] at hl
    rcases hl with h | h | h | h <;> subst h
    · decide
    · decide
    · exact ne_of_head _ _ 'O' 'M' (head_joinSp_OFFSET o1 o2 o3) rfl (by decide)
    · decide

/-- `printPT_ne_MOTION` for sibling segments. -/
theorem printPTList_ne_MOTION (ts : List PTree) :
    ∀ l ∈ printPTList ts, l ≠ "MOTION" := by
  cases ts with
  | nil => intro l hl; simp [printPTList] at hl
  | cons t ts2 =>
    intro l hl
    simp only [printPTList, List.mem_append] at hl
    rcases hl with h | h
    · exact printPT_ne_MOTION t false l h
    · exact printPTList_ne_MOTION ts2 l h

end

mutual

/-- The parser-fuel bound of a printed subtree is dominated by twice its
printed line count. -/
theorem ptFuel_le_print (t : PTree) (isRoot : Bool) :
    ptFuel t + 1 ≤ 2 * (printPT isRoot t).length := by
  cases t with
  | node name o1 o2 o3 cnt chans kids =>
    have h := ptFuelList_le_print kids
    simp only [ptFuel, printPT, List.length_cons, List.length_append, List.length_singleton]
    omega
  | stop o1 o2 o3 => simp [ptFuel, printPT]

/-- Fuel bound for sibling segments.  The extra slack `+ 1` pays for the
closing-brace iteration. -/
theorem ptFuelList_le_print (ts : List PTree) :
    ptFuelList ts ≤ 2 * (printPTList ts).length + 1 := by
  cases ts with
  | nil => simp [ptFuelList, printPTList]
  | cons t ts2 =>
    have h1 := ptFuel_le_print t false
    have h2 := ptFuelList_le_print ts2
    simp only [ptFuelList, printPTList, List.length_append]
    omega

end

/-- A full document of the §6 form: the hierarchy text of a grammar tree,
the `MOTION` separator, a `Frames:` line, a `Frame Time:` line, and the
frame data lines. -/
def assembled (t : PTree) (fLine ftLine : String) (dataLines : List String) :
    List String :=
  "HIERARCHY" :: printPT true t ++ "MOTION" :: fLine :: ftLine :: dataLines

theorem findIdx_MOTION (pre tail : List String) (h : ∀ l ∈ pre, l ≠ "MOTION") :
    List.findIdx? (· = "MOTION") (pre ++ "MOTION" :: tail) = some pre.length := by
  induction pre with
  | nil => simp [List.findIdx?_cons]
  | cons p ps ih =>
    have hp : (decide (p = "MOTION")) = false := by
      simp [h p (by simp)]
    rw [List.cons_append, List.findIdx?_cons]
    simp only [hp, Bool.false_eq_true, if_false, ite_false]
    rw [List.findIdx?_succ]
    rw [ih (fun l hl => h l (by simp [hl]))]
    simp

/-- `BVHParser.parse` on a §6-form document: the hierarchy round-trips, the
`MOTION` separator is found right after it, and the motion block parses with
the realized frame count. -/
theorem parseBVHLines_assembled (t : PTree) (fLine ftLine : String)
    (dataLines : List String) (N : ℕ) (tok : List Char)
    (hwf : wfPT t = true)
    (hframes : matchFrames fLine.data = some N)
    (hft : matchFrameTime ftLine.data = some tok) :
    parseBVHLines (assembled t fLine ftLine dataLines) =
      some ⟨toNodePT true t,
        ⟨(dataLines.take N).length, parseFloatJS tok,
          (dataLines.take N).map (fun l => (splitWs l).map (fun s => parseFloatJS s.data))⟩,
        some ((ptChanSum t : ℕ) : ℤ)⟩ := by
  have hlen : (assembled t fLine ftLine dataLines).length =
      1 + (printPT true t).length + 3 + dataLines.length := by
    simp [assembled]
    omega
  have hfuel : ptFuel t ≤ 2 * (assembled t fLine ftLine dataLines).length + 8 := by
    have := ptFuel_le_print t true
    rw [hlen]
    omega
  have hnode := parseNodeF_print t true ("MOTION" :: fLine :: ftLine :: dataLines)
    (2 * (assembled t fLine ftLine dataLines).length + 8) hwf hfuel
  have hidx : List.findIdx? (· = "MOTION") (assembled t fLine ftLine dataLines) =
      some ("HIERARCHY" :: printPT true t).length := by
    have : assembled t fLine ftLine dataLines =
        ("HIERARCHY" :: printPT true t) ++ "MOTION" :: fLine :: ftLine :: dataLines := by
      simp [assembled]
    rw [this]
    apply findIdx_MOTION
    intro l hl
    simp only [List.mem_cons] at hl
    rcases hl with h | h
    · subst h; decide
    · exact printPT_ne_MOTION t true l h
  have hdrop : (assembled t fLine ftLine dataLines).drop
      (("HIERARCHY" :: printPT true t).length + 1) = fLine :: ftLine :: dataLines := by
    have he : assembled t fLine ftLine dataLines =
        (("HIERARCHY" :: printPT true t) ++ ["MOTION"]) ++ fLine :: ftLine :: dataLines := by
      simp [assembled]
    have hl2 : ("HIERARCHY" :: printPT true t).length + 1 =
        (("HIERARCHY" :: printPT true t) ++ ["MOTION"]).length := by
      simp
    rw [he, hl2, List.drop_left]
  have hmot : parseMotionM (fLine :: ftLine :: dataLines) =
      some ⟨(dataLines.take N).length, parseFloatJS tok,
        (dataLines.take N).map (fun l => (splitWs l).map (fun s => parseFloatJS s.data))⟩ := by
    rw [parseMotionM]
    show (match matchFrames fLine.toList with
      | none => none
      | some declaredCount => _) = _
    rw [show fLine.toList = fLine.data from rfl, hframes]
    show (match matchFrameTime ftLine.toList with
      | none => none
      | some tok2 => _) = _
    rw [show ftLine.toList = ftLine.data from rfl, hft]
    simp
  have hasm : assembled t fLine ftLine dataLines =
      "HIERARCHY" :: (printPT true t ++ "MOTION" :: fLine :: ftLine :: dataLines) := by
    simp [assembled]
  rw [hlen] at hnode
  rw [hasm] at hidx hdrop ⊢
  rw [show (2 * ((1 : ℕ) + (printPT true t).length + 3 + dataLines.length) + 8) =
    2 * ("HIERARCHY" :: (printPT true t ++
      "MOTION" :: fLine :: ftLine :: dataLines)).length + 8 from by simp; omega] at hnode
  simp only [parseBVHLines, hnode, hidx, hdrop, hmot]
  simp

/-! ## Invariants of the evaluator

`updateBone` is characterized by a pre-order trace: the list of
`(name, world position)` pairs in visiting order together with the final
channel cursor.  The bone table after the walk is the fold of the trace's
(conditional) writes, and the `endSiteUpdates` map stays empty because no
parser-produced node ever has the two-word type `'End Site'`. -/

mutual

/-- All node types in a tree are whitespace-free (true of every
parser-produced tree: a type is `parts[0]` of a whitespace split). -/
def nodeTypeOk : BVHNode → Bool
  | .mk _ ty _ _ kids => ty.data.all (fun c => !c.isWhitespace) && nodeTypeOkList kids

/-- `nodeTypeOk` on a list of subtrees. -/
def nodeTypeOkList : List BVHNode → Bool
  | [] => true
  | n :: ns => nodeTypeOk n && nodeTypeOkList ns

end

theorem typeOk_ne_endsite (ty : String) (h : ty.data.all (fun c => !c.isWhitespace) = true) :
    ty ≠ "End Site" := by
  intro he
  subst he
  revert h
  decide

/-- Every token produced by the splitter is whitespace-free. -/
theorem wsSplitAux_no_ws (cs : List Char) :
    ∀ acc, (∀ c ∈ acc, ¬ c.isWhitespace) →
      ∀ tk ∈ wsSplitAux cs acc, ∀ c ∈ tk, ¬ c.isWhitespace := by
  induction cs with
  | nil =>
    intro acc hacc tk htk c hc
    simp only [wsSplitAux] at htk
    by_cases he : acc.isEmpty
    · simp [he] at htk
    · simp only [he, Bool.false_eq_true, if_false, ite_false, List.mem_singleton] at htk
      subst htk
      exact hacc c (by simpa using hc)
  | cons d ds ih =>
    intro acc hacc tk htk c hc
    simp only [wsSplitAux] at htk
    by_cases hd : d.isWhitespace
    · simp only [hd, if_pos, ite_true] at htk
      by_cases he : acc.isEmpty
      · simp only [he, if_pos, ite_true] at htk
        exact ih [] (by simp) tk htk c hc
      · simp only [he, Bool.false_eq_true, if_false, ite_false, List.mem_cons] at htk
        rcases htk with h | h
        · subst h
          exact hacc c (by simpa using hc)
        · exact ih [] (by simp) tk h c hc
    · simp only [hd, Bool.false_eq_true, if_false, ite_false] at htk
      refine ih (d :: acc) ?_ tk htk c hc
      intro e he
      simp only [List.mem_cons] at he
      rcases he with h | h
      · subst h; exact hd
      · exact hacc e h


/-- Tokens of a split line are whitespace-free, hence so is `parts.getD 0`. -/
theorem splitWs_getD0_no_ws (line : String) :
    ((splitWs line).getD 0 "").data.all (fun c => !c.isWhitespace) = true := by
  unfold splitWs
  cases h : wsSplit line.toList with
  | nil => decide
  | cons tk tks =>
    have hmem : tk ∈ wsSplit line.toList := by
      rw [h]; exact List.mem_cons_self _ _
    have hws := wsSplitAux_no_ws line.toList [] (by simp) tk hmem
    simp only [List.map_cons, List.getD_cons_zero]
    simp only [List.all_eq_true]
    intro c hc
    simpa using hws c hc

theorem nodeTypeOkList_append (ks : List BVHNode) (c : BVHNode)
    (hk : nodeTypeOkList ks = true) (hc : nodeTypeOk c = true) :
    nodeTypeOkList (ks ++ [c]) = true := by
  induction ks with
  | nil => simpa [nodeTypeOkList] using hc
  | cons k ks2 ih =>
    simp only [nodeTypeOkList, Bool.and_eq_true] at hk
    simp only [List.cons_append, nodeTypeOkList, Bool.and_eq_true]
    exact ⟨hk.1, ih hk.2⟩

/-- The hierarchy parser only builds nodes with whitespace-free types; in
particular no node is ever typed `'End Site'`. -/
theorem parser_typeOk (fuel : ℕ) :
    (∀ isRoot lines n tot rest,
      parseNodeF fuel isRoot lines = some (n, tot, rest) → nodeTypeOk n = true) ∧
    (∀ lines off chans kids tot off2 chans2 kids2 tot2 rem,
      nodeTypeOkList kids = true →
      parseBodyF fuel lines off chans kids tot = some (off2, chans2, kids2, tot2, rem) →
      nodeTypeOkList kids2 = true) := by
  induction fuel with
  | zero =>
    constructor
    · intro isRoot lines n tot rest h
      simp [parseNodeF] at h
    · intro lines off chans kids tot off2 chans2 kids2 tot2 rem hk h
      simp [parseBodyF] at h
  | succ f ih =>
    constructor
    · intro isRoot lines n tot rest h
      cases lines with
      | nil => simp [parseNodeF] at h
      | cons line rest1 =>
        rw [parseNodeF.eq_def] at h
        simp only [] at h
        cases rest1 with
        | nil => simp at h
        | cons l2 rest2 =>
          by_cases hl2 : l2 = "\x7b"
          · simp only [hl2, if_pos, ite_true] at h
            cases hb : parseBodyF f rest2 ⟨some 0, some 0, some 0⟩ [] [] (some 0) with
            | none => rw [hb] at h; simp at h
            | some r =>
              obtain ⟨off, chans, kids, tot1, rem1⟩ := r
              rw [hb] at h
              simp only [Option.some.injEq, Prod.mk.injEq] at h
              obtain ⟨h1, _⟩ := h
              have hkids : nodeTypeOkList kids = true :=
                ih.2 rest2 _ _ _ _ _ _ _ _ _ (by simp [nodeTypeOkList]) hb
              rw [← h1]
              simp only [nodeTypeOk, Bool.and_eq_true]
              exact ⟨splitWs_getD0_no_ws line, hkids⟩
          · simp [hl2] at h
    · intro lines off chans kids tot off2 chans2 kids2 tot2 rem hk h
      cases lines with
      | nil =>
        rw [parseBodyF] at h
        simp only [Option.some.injEq, Prod.mk.injEq] at h
        obtain ⟨_, _, h3, _, _⟩ := h
        rw [← h3]; exact hk
      | cons line rest1 =>
        rw [parseBodyF] at h
        by_cases hb : line = "\x7d"
        · simp only [hb, if_pos, ite_true, Option.some.injEq, Prod.mk.injEq] at h
          obtain ⟨_, _, h3, _, _⟩ := h
          rw [← h3]; exact hk
        · simp only [hb, if_neg, ite_false] at h
          by_cases ho : startsWithS "OFFSET" line = true
          · simp only [ho, if_pos, ite_true] at h
            exact ih.2 rest1 _ _ _ _ _ _ _ _ _ hk h
          · simp only [ho, Bool.false_eq_true, if_false, ite_false] at h
            by_cases hc : startsWithS "CHANNELS" line = true
            · simp only [hc, if_pos, ite_true] at h
              cases hn : parseIntJS? ((splitWs line).get? 1) with
              | some n => rw [hn] at h; exact ih.2 rest1 _ _ _ _ _ _ _ _ _ hk h
              | none => rw [hn] at h; exact ih.2 rest1 _ _ _ _ _ _ _ _ _ hk h
            · simp only [hc, Bool.false_eq_true, if_false, ite_false] at h
              by_cases hj : startsWithS "JOINT" line = true
              · simp only [hj, if_pos, ite_true] at h
                cases hn : parseNodeF f false (line :: rest1) with
                | none => rw [hn] at h; simp at h
                | some r =>
                  obtain ⟨child, ctot, rem1⟩ := r
                  rw [hn] at h
                  have hchild : nodeTypeOk child = true := ih.1 false _ _ _ _ hn
                  exact ih.2 rem1 _ _ _ _ _ _ _ _ _
                    (nodeTypeOkList_append kids child hk hchild) h
              · simp only [hj, Bool.false_eq_true, if_false, ite_false] at h
                by_cases he : startsWithS "End Site" line = true
                · simp only [he, if_pos, ite_true] at h
                  cases hn : parseNodeF f false (line :: rest1) with
                  | none => rw [hn] at h; simp at h
                  | some r =>
                    obtain ⟨child, ctot, rem1⟩ := r
                    rw [hn] at h
                    have hchild : nodeTypeOk child = true := ih.1 false _ _ _ _ hn
                    exact ih.2 rem1 _ _ _ _ _ _ _ _ _
                      (nodeTypeOkList_append kids child hk hchild) h
                · simp only [he, Bool.false_eq_true, if_false, ite_false] at h
                  exact ih.2 rest1 _ _ _ _ _ _ _ _ _ hk h

/-- Total form of the channel loop for a present frame: the same cursor
threading, with `frameData[channelIndex++]` reading `vals.getD cursor`. -/
def applyChansT (t : Trig) (vals : List JsNum) : List String → M4 → ℕ → M4 × ℕ
  | [], m, c => (m, c)
  | ch :: rest, m, c => applyChansT t vals rest (chanStep t m ch (vals.getD c none)) (c + 1)

/-- Position-indexed form of the channel loop: the `k`-th channel of the
list reads the frame element at index `start + k`. -/
def chanValsApplied (t : Trig) (vals : List JsNum) : ℕ → List String → M4 → M4
  | _, [], m => m
  | start, ch :: rest, m =>
    chanValsApplied t vals (start + 1) rest (chanStep t m ch (vals.getD start none))

/-- With a present frame the channel loop never throws and is the total
cursor-threaded loop. -/
theorem applyChans_some (t : Trig) (vals : List JsNum) (chans : List String)
    (m : M4) (c : ℕ) :
    applyChans t (some vals) chans m c = .ok (applyChansT t vals chans m c) := by
  induction chans generalizing m c with
  | nil => rfl
  | cons ch rest ih => simp only [applyChans, applyChansT, ih]

/-- The cursor-threaded loop advances the cursor by exactly
`channels.length` and consumes, for its `k`-th channel, the frame element at
index `cursor + k`. -/
theorem applyChansT_indexed (t : Trig) (vals : List JsNum) (chans : List String)
    (m : M4) (c : ℕ) :
    applyChansT t vals chans m c = (chanValsApplied t vals c chans m, c + chans.length) := by
  induction chans generalizing m c with
  | nil => simp [applyChansT, chanValsApplied]
  | cons ch rest ih =>
    simp only [applyChansT, chanValsApplied, ih, List.length_cons]
    congr 1
    omega

/-- A failed channel loop is only possible when the frame itself is absent;
then the loop throws at its first element access. -/
theorem applyChans_none_error (t : Trig) (ch : String) (chans : List String)
    (m : M4) (c : ℕ) :
    applyChans t none (ch :: chans) m c = .error () := rfl

mutual

/-- The pre-order trace of one frame evaluation: every node's
`(name, world position)` in visiting order, with the channel cursor
threaded through. -/
def fkTrace (t : Trig) (vals : List JsNum) : BVHNode → M4 → ℕ → List (String × V3) × ℕ
  | .mk name _ off chans kids, pt, c =>
    let world := M4.mul pt (chanValsApplied t vals c chans
      (M4.makeTranslation off.x off.y off.z))
    let rest := fkTraceList t vals kids world (c + chans.length)
    ((name, world.position) :: rest.1, rest.2)

/-- `fkTrace` over siblings. -/
def fkTraceList (t : Trig) (vals : List JsNum) : List BVHNode → M4 → ℕ → List (String × V3) × ℕ
  | [], _, c => ([], c)
  | k :: ks, world, c =>
    let r1 := fkTrace t vals k world c
    let r2 := fkTraceList t vals ks world r1.2
    (r1.1 ++ r2.1, r2.2)

end

/-- Applying the trace's writes to a bone table: each visited node writes
its world position onto an existing entry of its name (`if (boneData &&
boneData.sphere)`), missing names are skipped. -/
def applyWrites (b : Store) (tr : List (String × V3)) : Store :=
  tr.foldl (fun b p => if (mapGet b p.1).isSome then mapSet b p.1 p.2 else b) b

theorem applyWrites_append (b : Store) (t1 t2 : List (String × V3)) :
    applyWrites b (t1 ++ t2) = applyWrites (applyWrites b t1) t2 :=
  List.foldl_append _ _ _ _

theorem typeOkList_mem (ks : List BVHNode) (h : nodeTypeOkList ks = true) :
    ∀ k ∈ ks, k.type ≠ "End Site" := by
  induction ks with
  | nil => intro k hk; simp at hk
  | cons a as ih =>
    simp only [nodeTypeOkList, Bool.and_eq_true] at h
    intro k hk
    rcases List.mem_cons.mp hk with he | he
    · subst he
      cases k with
      | mk kn kt ko kc kk =>
        simp only [nodeTypeOk, Bool.and_eq_true] at h
        exact typeOk_ne_endsite kt h.1.1
    · exact ih h.2 k he

/-- The End-Site scanning loop of `updateBone` does nothing when no child
has the (unreachable) type `'End Site'`. -/
theorem endsiteFold_id (ks : List BVHNode) (name : String) (pos : V3)
    (es : JsMap V3) (h : ∀ k ∈ ks, k.type ≠ "End Site") :
    ks.foldl (fun es c =>
      if c.type = "End Site" then mapSet es ("EndSite_" ++ name) (pos.addOffset c.offset)
      else es) es = es := by
  induction ks generalizing es with
  | nil => rfl
  | cons a as ih =>
    simp only [List.foldl_cons]
    rw [if_neg (h a (by simp))]
    exact ih es (fun k hk => h k (List.mem_cons_of_mem a hk))

mutual

/-- Characterization of `updateBone` on a present frame: it cannot throw,
its cursor and bone table are those of the pre-order trace, and — when every
node type is whitespace-free, as the parser guarantees — the
`endSiteUpdates` map is left untouched (the `'End Site'` comparison never
matches). -/
theorem updateBone_trace (t : Trig) (vals : List JsNum) (n : BVHNode) :
    ∀ (pt : M4) (st : UBState), nodeTypeOk n = true →
      updateBoneM t (some vals) n pt st =
        .ok ⟨(fkTrace t vals n pt st.cursor).2,
          applyWrites st.bones (fkTrace t vals n pt st.cursor).1,
          st.endSites⟩ := by
  cases n with
  | mk name ty off chans kids =>
    intro pt st hok
    simp only [nodeTypeOk, Bool.and_eq_true] at hok
    obtain ⟨hty, hkids⟩ := hok
    rw [updateBoneM, applyChans_some, applyChansT_indexed]
    dsimp only
    rw [endsiteFold_id kids name _ _ (typeOkList_mem kids hkids)]
    rw [updateBoneList_trace t vals kids _ _ hkids]
    dsimp only [fkTrace]
    simp only [applyWrites, List.foldl_cons]

/-- `updateBone_trace` over siblings. -/
theorem updateBoneList_trace (t : Trig) (vals : List JsNum) (ks : List BVHNode) :
    ∀ (world : M4) (st : UBState), nodeTypeOkList ks = true →
      updateBoneListM t (some vals) ks world st =
        .ok ⟨(fkTraceList t vals ks world st.cursor).2,
          applyWrites st.bones (fkTraceList t vals ks world st.cursor).1,
          st.endSites⟩ := by
  cases ks with
  | nil =>
    intro world st _
    simp [updateBoneListM, fkTraceList, applyWrites]
  | cons k ks2 =>
    intro world st hok
    simp only [nodeTypeOkList, Bool.and_eq_true] at hok
    rw [updateBoneListM]
    rw [updateBone_trace t vals k world st hok.1]
    dsimp only
    rw [updateBoneList_trace t vals ks2 world _ hok.2]
    dsimp only [fkTraceList]
    simp only [applyWrites_append]

end

mutual

/-- Cursor accounting: a subtree advances the cursor by exactly the sum of
`channels.length` over its nodes (zero for channel-less End-Site leaves). -/
theorem fkTrace_cursor (t : Trig) (vals : List JsNum) (n : BVHNode) :
    ∀ (pt : M4) (c : ℕ), (fkTrace t vals n pt c).2 = c + nodeChanSum n := by
  cases n with
  | mk name ty off chans kids =>
    intro pt c
    dsimp only [fkTrace]
    rw [fkTraceList_cursor t vals kids]
    simp only [nodeChanSum]
    omega

/-- Cursor accounting over siblings. -/
theorem fkTraceList_cursor (t : Trig) (vals : List JsNum) (ks : List BVHNode) :
    ∀ (world : M4) (c : ℕ), (fkTraceList t vals ks world c).2 = c + listChanSum ks := by
  cases ks with
  | nil => intro world c; simp [fkTraceList, listChanSum]
  | cons k ks2 =>
    intro world c
    dsimp only [fkTraceList]
    rw [fkTrace_cursor t vals k, fkTraceList_cursor t vals ks2]
    simp only [listChanSum]
    omega

end

/-- `updateFrame` on an in-range frame index: no exception, and the bone
table becomes the fold of the pre-order trace's writes (the
`endSiteUpdates` pass is empty for parser-shaped trees). -/
theorem updateFrame_trace (t : Trig) (md : MotionData) (skel : BVHNode)
    (frameIndex : ℤ) (bones : Store)
    (h0 : 0 ≤ frameIndex) (hlt : frameIndex < (md.frames.length : ℤ))
    (hok : nodeTypeOk skel = true) :
    updateFrameM t (some md) skel frameIndex bones =
      .ok (applyWrites bones
        (fkTrace t (md.frames.getD frameIndex.toNat []) skel M4.id4 0).1) := by
  rw [updateFrameM]
  rw [if_neg (by omega)]
  rw [if_pos h0]
  dsimp only
  rw [updateBone_trace t _ skel M4.id4 ⟨0, bones, []⟩ hok]
  dsimp only
  rfl

/-! ## Bone-table (JavaScript `Map`) lemmas -/

theorem mapGet_cons {α : Type} (q : String × α) (m : JsMap α) (k : String) :
    mapGet (q :: m) k = if q.1 = k then some q.2 else mapGet m k := by
  unfold mapGet
  rw [List.find?]
  by_cases hq : q.1 = k
  · simp [hq]
  · simp [hq]

theorem mapSet_cons_ne {α : Type} (q : String × α) (m : JsMap α) (k : String) (v : α)
    (hq : q.1 ≠ k) : mapSet (q :: m) k v = q :: mapSet m k v := by
  unfold mapSet
  by_cases ha : m.any (fun p => p.1 = k)
  · rw [if_pos ha, if_pos (by simp [List.any_cons, ha])]
    simp [hq]
  · rw [if_neg ha, if_neg (by simp [List.any_cons, ha, hq])]
    simp

theorem mapSet_cons_eq {α : Type} (q : String × α) (m : JsMap α) (k : String) (v : α)
    (hq : q.1 = k) :
    mapSet (q :: m) k v = (k, v) :: m.map (fun p => if p.1 = k then (k, v) else p) := by
  unfold mapSet
  rw [if_pos (by simp [List.any_cons, hq])]
  simp [hq]

theorem mapGet_map_replace {α : Type} (m : JsMap α) (k k2 : String) (v : α)
    (h : k2 ≠ k) :
    mapGet (m.map (fun p => if p.1 = k then (k, v) else p)) k2 = mapGet m k2 := by
  induction m with
  | nil => rfl
  | cons q m2 ih =>
    simp only [List.map_cons]
    by_cases hq : q.1 = k
    · rw [if_pos hq, mapGet_cons, mapGet_cons]
      rw [if_neg (by simp [Ne.symm h]), if_neg (by rw [hq]; exact Ne.symm h)]
      exact ih
    · rw [if_neg hq, mapGet_cons, mapGet_cons]
      by_cases hq2 : q.1 = k2
      · simp [hq2]
      · rw [if_neg hq2, if_neg hq2]
        exact ih

theorem mapGet_mapSet_self {α : Type} (m : JsMap α) (k : String) (v : α) :
    mapGet (mapSet m k v) k = some v := by
  induction m with
  | nil =>
    unfold mapSet mapGet
    simp [List.find?]
  | cons q m2 ih =>
    by_cases hq : q.1 = k
    · rw [mapSet_cons_eq q m2 k v hq, mapGet_cons]
      simp
    · rw [mapSet_cons_ne q m2 k v hq, mapGet_cons, if_neg hq]
      exact ih

theorem mapGet_mapSet_ne {α : Type} (m : JsMap α) (k k2 : String) (v : α)
    (h : k2 ≠ k) : mapGet (mapSet m k v) k2 = mapGet m k2 := by
  induction m with
  | nil =>
    unfold mapSet mapGet
    simp [List.find?, Ne.symm h]
  | cons q m2 ih =>
    by_cases hq : q.1 = k
    · rw [mapSet_cons_eq q m2 k v hq, mapGet_cons, mapGet_cons]
      rw [if_neg (by simp [Ne.symm h]), if_neg (by rw [hq]; exact Ne.symm h)]
      exact mapGet_map_replace m2 k k2 v h
    · rw [mapSet_cons_ne q m2 k v hq, mapGet_cons, mapGet_cons]
      by_cases hq2 : q.1 = k2
      · simp [hq2]
      · rw [if_neg hq2, if_neg hq2]
        exact ih

/-- A conditional trace write to another key does not change a lookup. -/
theorem mapGet_writeStep_ne {α : Type} (b : JsMap α) (p : String × α) (k : String)
    (h : p.1 ≠ k) :
    mapGet (if (mapGet b p.1).isSome then mapSet b p.1 p.2 else b) k = mapGet b k := by
  by_cases hp : (mapGet b p.1).isSome
  · rw [if_pos hp]; exact mapGet_mapSet_ne b p.1 k p.2 (Ne.symm h)
  · rw [if_neg hp]

/-- A conditional trace write never creates a key. -/
theorem mapGet_writeStep_none {α : Type} (b : JsMap α) (p : String × α) (k : String)
    (h : mapGet b k = none) :
    mapGet (if (mapGet b p.1).isSome then mapSet b p.1 p.2 else b) k = none := by
  by_cases he : p.1 = k
  · have hp : mapGet b p.1 = none := by rw [he]; exact h
    rw [hp]
    simpa using h
  · rw [mapGet_writeStep_ne b p k he]
    exact h

/-- A conditional trace write to an existing key stores the value. -/
theorem mapGet_writeStep_self {α : Type} (b : JsMap α) (k : String) (v : α)
    (h : (mapGet b k).isSome = true) :
    mapGet (if (mapGet b k).isSome then mapSet b k v else b) k = some v := by
  rw [if_pos h]
  exact mapGet_mapSet_self b k v

/-- The lookup after the whole write fold on an existing key is the LAST
write to that key (pre-order order), or the original value when the key is
never written. -/
theorem applyWrites_get (tr : List (String × V3)) :
    ∀ (b : Store) (k : String), (mapGet b k).isSome = true →
      mapGet (applyWrites b tr) k =
        match (tr.filter (fun q => q.1 = k)).getLast? with
        | some q => some q.2
        | none => mapGet b k := by
  induction tr with
  | nil =>
    intro b k h
    simp [applyWrites]
  | cons p rest ih =>
    intro b k h
    have hstep : applyWrites b (p :: rest) =
        applyWrites (if (mapGet b p.1).isSome then mapSet b p.1 p.2 else b) rest := rfl
    rw [hstep]
    by_cases hp : p.1 = k
    · have hpres : (mapGet (if (mapGet b p.1).isSome then mapSet b p.1 p.2 else b) k).isSome
          = true := by
        rw [hp, if_pos (hp ▸ h), mapGet_mapSet_self]
        rfl
      rw [ih _ k hpres]
      have hfe : (p :: rest).filter (fun q => q.1 = k) =
          p :: rest.filter (fun q => q.1 = k) := by
        simp [List.filter_cons, hp]
      rw [hfe, List.getLast?_cons]
      cases hl : (rest.filter (fun q => q.1 = k)).getLast? with
      | some q => simp
      | none =>
        simp only [Option.getD_none]
        obtain ⟨pk, pv⟩ := p
        simp only at hp
        subst hp
        exact mapGet_writeStep_self b pk pv h
    · have hpres : (mapGet (if (mapGet b p.1).isSome then mapSet b p.1 p.2 else b) k).isSome
          = true := by
        rw [mapGet_writeStep_ne b p k hp]
        exact h
      rw [ih _ k hpres]
      have hfe : (p :: rest).filter (fun q => q.1 = k) =
          rest.filter (fun q => q.1 = k) := by
        simp [List.filter_cons, hp]
      rw [hfe, mapGet_writeStep_ne b p k hp]

/-- Key uniqueness of a `Map`: the association list never holds two entries
with the same key. -/
def keysNodup {α : Type} (m : JsMap α) : Prop := (m.map Prod.fst).Nodup

theorem keysNodup_mapSet {α : Type} (m : JsMap α) (k : String) (v : α)
    (h : keysNodup m) : keysNodup (mapSet m k v) := by
  unfold mapSet
  by_cases ha : m.any (fun p => p.1 = k)
  · rw [if_pos ha]
    have : (m.map (fun p => if p.1 = k then (k, v) else p)).map Prod.fst = m.map Prod.fst := by
      rw [List.map_map]
      apply List.map_congr_left
      intro p _
      by_cases hp : p.1 = k
      · simp [hp]
      · simp [hp]
    unfold keysNodup
    rw [this]
    exact h
  · rw [if_neg ha]
    unfold keysNodup
    rw [List.map_append]
    simp only [List.map_cons, List.map_nil]
    rw [List.nodup_append]
    refine ⟨h, List.nodup_singleton k, ?_⟩
    intro x hx hxk
    simp only [List.mem_singleton] at hxk
    subst hxk
    simp only [List.mem_map] at hx
    obtain ⟨p, hp, hpk⟩ := hx
    simp only [List.any_eq_true, decide_eq_true_eq, not_exists, not_and] at ha
    exact ha p hp hpk

theorem mapSet_presence {α : Type} (m : JsMap α) (k k2 : String) (v : α)
    (h : (mapGet m k).isSome = true) : (mapGet (mapSet m k2 v) k).isSome = true := by
  by_cases he : k = k2
  · subst he
    rw [mapGet_mapSet_self]
    rfl
  · rw [mapGet_mapSet_ne m k2 k v he]
    exact h

theorem filter_key_nil {α : Type} (m : JsMap α) (k : String)
    (h : k ∉ m.map Prod.fst) : m.filter (fun p => p.1 = k) = [] := by
  induction m with
  | nil => rfl
  | cons q m2 ih =>
    simp only [List.map_cons, List.mem_cons, not_or] at h
    rw [List.filter_cons]
    rw [if_neg (by simpa using fun he => h.1 he.symm)]
    exact ih h.2

/-- On a unique-key table, a resolvable key has exactly one entry. -/
theorem keysNodup_count {α : Type} (m : JsMap α) (k : String)
    (hn : keysNodup m) (hp : (mapGet m k).isSome = true) :
    (m.filter (fun p => p.1 = k)).length = 1 := by
  induction m with
  | nil => simp [mapGet, List.find?] at hp
  | cons q m2 ih =>
    unfold keysNodup at hn
    simp only [List.map_cons, List.nodup_cons] at hn
    by_cases hq : q.1 = k
    · rw [List.filter_cons, if_pos (by simpa using hq)]
      rw [filter_key_nil m2 k (hq ▸ hn.1)]
      rfl
    · rw [List.filter_cons, if_neg (by simpa using hq)]
      rw [mapGet_cons, if_neg hq] at hp
      exact ih hn.2 hp

mutual

/-- Some joint of the subtree is named `X`, carries at least one channel and
has a type other than `'End Site'` — i.e. `createBonesFromBVH` makes a bone
entry named `X` for it. -/
def hasChanJoint (X : String) : BVHNode → Bool
  | .mk name ty _ chans kids =>
    (decide (name = X) && decide (0 < chans.length) && decide (ty ≠ "End Site")) ||
      hasChanJointList X kids

/-- `hasChanJoint` over siblings. -/
def hasChanJointList (X : String) : List BVHNode → Bool
  | [] => false
  | n :: ns => hasChanJoint X n || hasChanJointList X ns

end

mutual

/-- `createBonesFromBVH` never removes a bone entry. -/
theorem createBones_mono (n : BVHNode) :
    ∀ (p : Option String) (pos : V3) (b : Store) (k : String),
      (mapGet b k).isSome = true → (mapGet (createBones n p pos b) k).isSome = true := by
  cases n with
  | mk name ty off chans kids =>
    intro p pos b k h
    rw [createBones.eq_def]
    apply createBonesList_mono
    dsimp only
    by_cases h1 : chans.length > 0 ∧ ty ≠ "End Site"
    · rw [if_pos h1]
      exact mapSet_presence b k name _ h
    · rw [if_neg h1]
      by_cases h2 : ty = "End Site"
      · rw [if_pos h2]
        cases p with
        | none => exact h
        | some pn => exact mapSet_presence b k _ _ h
      · rw [if_neg h2]
        exact h

/-- `createBones_mono` over siblings. -/
theorem createBonesList_mono (ks : List BVHNode) :
    ∀ (p : Option String) (pos : V3) (b : Store) (k : String),
      (mapGet b k).isSome = true → (mapGet (createBonesList ks p pos b) k).isSome = true := by
  cases ks with
  | nil => intro p pos b k h; exact h
  | cons c cs =>
    intro p pos b k h
    rw [createBonesList]
    exact createBonesList_mono cs p pos _ k (createBones_mono c p pos b k h)

end

mutual

/-- A channel-bearing joint named `X` guarantees a bone-table entry `X`. -/
theorem createBones_present (n : BVHNode) :
    ∀ (X : String) (p : Option String) (pos : V3) (b : Store),
      hasChanJoint X n = true → (mapGet (createBones n p pos b) X).isSome = true := by
  cases n with
  | mk name ty off chans kids =>
    intro X p pos b hc
    simp only [hasChanJoint, Bool.or_eq_true, Bool.and_eq_true, decide_eq_true_eq] at hc
    rw [createBones.eq_def]
    rcases hc with ⟨⟨hn, hl⟩, ht⟩ | hks
    · apply createBonesList_mono
      dsimp only
      rw [if_pos ⟨hl, ht⟩, hn]
      rw [mapGet_mapSet_self]
      rfl
    · exact createBonesList_present kids X _ _ _ hks

/-- `createBones_present` over siblings. -/
theorem createBonesList_present (ks : List BVHNode) :
    ∀ (X : String) (p : Option String) (pos : V3) (b : Store),
      hasChanJointList X ks = true →
      (mapGet (createBonesList ks p pos b) X).isSome = true := by
  cases ks with
  | nil => intro X p pos b h; simp [hasChanJointList] at h
  | cons c cs =>
    intro X p pos b h
    simp only [hasChanJointList, Bool.or_eq_true] at h
    rw [createBonesList]
    rcases h with h | h
    · exact createBonesList_mono cs p pos _ X (createBones_present c X p pos b h)
    · exact createBonesList_present cs X p pos _ h

end

mutual

/-- `createBonesFromBVH` keeps the bone table's keys unique. -/
theorem createBones_nodup (n : BVHNode) :
    ∀ (p : Option String) (pos : V3) (b : Store),
      keysNodup b → keysNodup (createBones n p pos b) := by
  cases n with
  | mk name ty off chans kids =>
    intro p pos b h
    rw [createBones.eq_def]
    apply createBonesList_nodup
    dsimp only
    by_cases h1 : chans.length > 0 ∧ ty ≠ "End Site"
    · rw [if_pos h1]
      exact keysNodup_mapSet b name _ h
    · rw [if_neg h1]
      by_cases h2 : ty = "End Site"
      · rw [if_pos h2]
        cases p with
        | none => exact h
        | some pn => exact keysNodup_mapSet b _ _ h
      · rw [if_neg h2]
        exact h

/-- `createBones_nodup` over siblings. -/
theorem createBonesList_nodup (ks : List BVHNode) :
    ∀ (p : Option String) (pos : V3) (b : Store),
      keysNodup b → keysNodup (createBonesList ks p pos b) := by
  cases ks with
  | nil => intro p pos b h; exact h
  | cons c cs =>
    intro p pos b h
    rw [createBonesList]
    exact createBonesList_nodup cs p pos _ (createBones_nodup c p pos b h)

end

mutual

/-- The parsed tree of a printed grammar tree carries exactly the declared
channels: `nodeChanSum` agrees with the grammar total. -/
theorem nodeChanSum_toNodePT (t : PTree) :
    ∀ isRoot, nodeChanSum (toNodePT isRoot t) = ptChanSum t := by
  cases t with
  | node name o1 o2 o3 cnt chans kids =>
    intro isRoot
    simp only [toNodePT, nodeChanSum, ptChanSum]
    rw [listChanSum_toNodePT kids]
  | stop o1 o2 o3 =>
    intro isRoot
    simp [toNodePT, nodeChanSum, ptChanSum, listChanSum]

/-- `nodeChanSum_toNodePT` over siblings. -/
theorem listChanSum_toNodePT (ts : List PTree) :
    listChanSum (toNodePTList ts) = ptChanSumList ts := by
  cases ts with
  | nil => rfl
  | cons t ts2 =>
    simp only [toNodePTList, listChanSum, ptChanSumList]
    rw [nodeChanSum_toNodePT t false, listChanSum_toNodePT ts2]

end

/-! ## Trig congruence

Claims fix the trigonometric model only at the angles their frames use
(e.g. `cosd 0 = 1`).  Evaluation under any model agreeing on the frame's
values coincides, so concrete runs can be discharged with a decidable
table model. -/

theorem getD_ne_default_mem {α : Type} [DecidableEq α] (l : List α) (i : ℕ) (d : α)
    (h : l.getD i d ≠ d) : l.getD i d ∈ l := by
  rcases lt_or_ge i l.length with hlt | hge
  · rw [List.getD_eq_getElem l d hlt]
    exact List.getElem_mem hlt
  · rw [List.getD_eq_default l d hge] at h
    exact absurd rfl h

theorem chanStep_congr (t t2 : Trig) (m : M4) (ch : String) (v : JsNum)
    (h : ∀ q : ℚ, v = some q → t.cosd q = t2.cosd q ∧ t.sind q = t2.sind q) :
    chanStep t m ch v = chanStep t2 m ch v := by
  have hc : t.jcos v = t2.jcos v := by
    cases v with
    | none => rfl
    | some q => simp [Trig.jcos, (h q rfl).1]
  have hs : t.jsin v = t2.jsin v := by
    cases v with
    | none => rfl
    | some q => simp [Trig.jsin, (h q rfl).2]
  unfold chanStep
  rw [hc, hs]

theorem chanValsApplied_congr (t t2 : Trig) (vals : List JsNum)
    (h : ∀ q : ℚ, (some q) ∈ vals → t.cosd q = t2.cosd q ∧ t.sind q = t2.sind q) :
    ∀ (chans : List String) (start : ℕ) (m : M4),
      chanValsApplied t vals start chans m = chanValsApplied t2 vals start chans m := by
  intro chans
  induction chans with
  | nil => intro start m; rfl
  | cons ch rest ih =>
    intro start m
    unfold chanValsApplied
    rw [chanStep_congr t t2 m ch (vals.getD start none) ?_]
    · exact ih (start + 1) _
    · intro q hq
      apply h q
      have : vals.getD start none ≠ none := by rw [hq]; simp
      rw [← hq]
      exact getD_ne_default_mem vals start none this

mutual

/-- Frame evaluation only consults the trig model at the frame's own
values. -/
theorem fkTrace_congr (t t2 : Trig) (vals : List JsNum) (n : BVHNode)
    (h : ∀ q : ℚ, (some q) ∈ vals → t.cosd q = t2.cosd q ∧ t.sind q = t2.sind q) :
    ∀ (pt : M4) (c : ℕ), fkTrace t vals n pt c = fkTrace t2 vals n pt c := by
  cases n with
  | mk name ty off chans kids =>
    intro pt c
    dsimp only [fkTrace]
    rw [chanValsApplied_congr t t2 vals h chans c]
    rw [fkTraceList_congr t t2 vals kids h]

/-- `fkTrace_congr` over siblings. -/
theorem fkTraceList_congr (t t2 : Trig) (vals : List JsNum) (ks : List BVHNode)
    (h : ∀ q : ℚ, (some q) ∈ vals → t.cosd q = t2.cosd q ∧ t.sind q = t2.sind q) :
    ∀ (world : M4) (c : ℕ),
      fkTraceList t vals ks world c = fkTraceList t2 vals ks world c := by
  cases ks with
  | nil => intro world c; rfl
  | cons k ks2 =>
    intro world c
    dsimp only [fkTraceList]
    rw [fkTrace_congr t t2 vals k h, fkTraceList_congr t t2 vals ks2 h]

end

/-- A decidable table model of cosine/sine at the angles the concrete runs
use: the true values at 0 and 90 degrees. -/
def trigT : Trig :=
  ⟨fun q => if q = 0 then 1 else 0, fun q => if q = 90 then 1 else 0⟩

/-- The write fold never creates a bone entry. -/
theorem applyWrites_none (tr : List (String × V3)) :
    ∀ (b : Store) (k : String), mapGet b k = none → mapGet (applyWrites b tr) k = none := by
  induction tr with
  | nil => intro b k h; exact h
  | cons p rest ih =>
    intro b k h
    have hstep : applyWrites b (p :: rest) =
        applyWrites (if (mapGet b p.1).isSome then mapSet b p.1 p.2 else b) rest := rfl
    rw [hstep]
    exact ih _ k (mapGet_writeStep_none b p k h)

/-- Cursor accounting of the raw channel loop, for any frame argument. -/
theorem applyChans_cursor (t : Trig) (fd : Option (List JsNum)) (chans : List String) :
    ∀ (m m2 : M4) (c c2 : ℕ), applyChans t fd chans m c = .ok (m2, c2) →
      c2 = c + chans.length := by
  induction chans with
  | nil =>
    intro m m2 c c2 h
    simp only [applyChans, Except.ok.injEq, Prod.mk.injEq] at h
    rw [← h.2]
    simp
  | cons ch rest ih =>
    intro m m2 c c2 h
    cases fd with
    | none => simp [applyChans] at h
    | some vals =>
      simp only [applyChans] at h
      have := ih _ m2 (c + 1) c2 h
      simp only [List.length_cons]
      omega

mutual

/-- The cursor advance of `updateBone` on any frame argument: exactly the
subtree's summed `channels.length`. -/
theorem updateBone_cursor (t : Trig) (fd : Option (List JsNum)) (n : BVHNode) :
    ∀ (pt : M4) (st st2 : UBState), updateBoneM t fd n pt st = .ok st2 →
      st2.cursor = st.cursor + nodeChanSum n := by
  cases n with
  | mk name ty off chans kids =>
    intro pt st st2 h
    rw [updateBoneM] at h
    cases hap : applyChans t fd chans (M4.makeTranslation off.x off.y off.z) st.cursor with
    | error e => rw [hap] at h; simp at h
    | ok r =>
      obtain ⟨localM, cursor2⟩ := r
      rw [hap] at h
      dsimp only at h
      have h1 := applyChans_cursor t fd chans _ _ _ _ hap
      have h2 := updateBoneList_cursor t fd kids _ _ _ h
      simp only [nodeChanSum]
      simp only at h2
      omega

/-- `updateBone_cursor` over siblings. -/
theorem updateBoneList_cursor (t : Trig) (fd : Option (List JsNum)) (ks : List BVHNode) :
    ∀ (world : M4) (st st2 : UBState), updateBoneListM t fd ks world st = .ok st2 →
      st2.cursor = st.cursor + listChanSum ks := by
  cases ks with
  | nil =>
    intro world st st2 h
    simp only [updateBoneListM, Except.ok.injEq] at h
    rw [← h]
    simp [listChanSum]
  | cons k ks2 =>
    intro world st st2 h
    rw [updateBoneListM] at h
    cases hk : updateBoneM t fd k world st with
    | error e => rw [hk] at h; simp at h
    | ok st1 =>
      rw [hk] at h
      dsimp only at h
      have h1 := updateBone_cursor t fd k world st st1 hk
      have h2 := updateBoneList_cursor t fd ks2 world st1 st2 h
      simp only [listChanSum]
      omega

end

/-- The token captured by the `Frame Time` pattern is a non-empty run of
digits and dots. -/
theorem matchFrameTimeAt_chars (cs tok : List Char)
    (h : matchFrameTimeAt cs = some tok) :
    tok ≠ [] ∧ ∀ c ∈ tok, c.isDigit ∨ c = '.' := by
  unfold matchFrameTimeAt at h
  by_cases hp : ("Frame Time:".toList).isPrefixOf cs
  · rw [if_pos hp] at h
    by_cases hd : ((cs.drop 11).dropWhile Char.isWhitespace).takeWhile
        (fun c => c.isDigit ∨ c = '.') = []
    · rw [if_pos hd] at h
      simp at h
    · rw [if_neg hd] at h
      simp only [Option.some.injEq] at h
      subst h
      refine ⟨hd, ?_⟩
      intro c hc
      have hpred := List.mem_takeWhile_imp hc
      simpa using hpred
  · rw [if_neg hp] at h
    simp at h

theorem matchFrameTime_chars (cs : List Char) :
    ∀ tok, matchFrameTime cs = some tok →
      tok ≠ [] ∧ ∀ c ∈ tok, c.isDigit ∨ c = '.' := by
  induction cs with
  | nil => intro tok h; simp [matchFrameTime] at h
  | cons c cs2 ih =>
    intro tok h
    rw [matchFrameTime] at h
    cases ha : matchFrameTimeAt (c :: cs2) with
    | some t2 =>
      rw [ha] at h
      simp only [Option.some.injEq] at h
      subst h
      exact matchFrameTimeAt_chars _ _ ha
    | none =>
      rw [ha] at h
      exact ih tok h

/-- The unsigned float core is non-negative when defined. -/
theorem parseFloatCore_nonneg (cs : List Char) (q : ℚ)
    (h : parseFloatCore cs = some q) : 0 ≤ q := by
  unfold parseFloatCore at h
  by_cases hc : cs.takeWhile Char.isDigit = [] ∧ (fracOf (cs.dropWhile Char.isDigit)).1 = []
  · rw [if_pos hc] at h
    simp at h
  · rw [if_neg hc] at h
    simp only [Option.some.injEq] at h
    subst h
    have h10 : (0 : ℚ) < (10 : ℚ) ^ expOf (fracOf (cs.dropWhile Char.isDigit)).2 :=
      zpow_pos (by norm_num) _
    positivity

/-- `parseFloat` of a digits-and-dots token is non-negative when it is a
number at all (no sign can occur). -/
theorem parseFloatJS_digitdot_nonneg (tok : List Char) (q : ℚ)
    (hchars : ∀ c ∈ tok, c.isDigit ∨ c = '.')
    (h : parseFloatJS tok = some q) : 0 ≤ q := by
  cases tok with
  | nil =>
    simp [parseFloatJS, parseFloatCore, fracOf] at h
  | cons c rest =>
    have hc := hchars c (by simp)
    have hm : c ≠ '-' ∧ c ≠ '+' := by
      rcases hc with hd | hd
      · constructor <;> intro he <;> subst he <;> simp [Char.isDigit] at hd
      · subst hd
        constructor <;> decide
    have hred : parseFloatJS (c :: rest) = parseFloatCore (c :: rest) := by
      unfold parseFloatJS
      split
      · next heq => rw [List.cons.injEq] at heq; exact absurd heq.1 hm.1
      · next heq => rw [List.cons.injEq] at heq; exact absurd heq.1 hm.2
      · rfl
    rw [hred] at h
    exact parseFloatCore_nonneg _ q h

/-- Any successful parse obtained its motion data from `parseMotion`; the
frame time is `parseFloat` of the token matched after `Frame Time:`. -/
theorem parseMotionM_frameTime (lines : List String) (md : MotionData)
    (h : parseMotionM lines = some md) :
    ∃ ftLine tok, matchFrameTime (String.toList ftLine) = some tok ∧
      md.frameTime = parseFloatJS tok := by
  unfold parseMotionM at h
  cases lines with
  | nil => simp at h
  | cons framesLine rest =>
    dsimp only at h
    cases hm : matchFrames framesLine.toList with
    | none => rw [hm] at h; simp at h
    | some N =>
      rw [hm] at h
      dsimp only at h
      cases rest with
      | nil => simp at h
      | cons ftLine dataLines =>
        dsimp only at h
        cases hf : matchFrameTime ftLine.toList with
        | none => rw [hf] at h; simp at h
        | some tok =>
          rw [hf] at h
          simp only [Option.some.injEq] at h
          exact ⟨ftLine, tok, hf, by rw [← h]⟩

theorem parseBVHLines_motion (lines : List String) (r : ParseResult)
    (h : parseBVHLines lines = some r) :
    ∃ mlines, parseMotionM mlines = some r.motionData := by
  unfold parseBVHLines at h
  cases lines with
  | nil => simp at h
  | cons l0 rest =>
    dsimp only at h
    by_cases h0 : l0 = "HIERARCHY"
    · rw [if_pos h0] at h
      cases hn : parseNodeF (2 * (l0 :: rest).length + 8) true rest with
      | none => rw [hn] at h; simp at h
      | some nres =>
        obtain ⟨skel, tot, rem⟩ := nres
        rw [hn] at h
        dsimp only at h
        cases hi : (l0 :: rest).findIdx? (· = "MOTION") with
        | none => rw [hi] at h; simp at h
        | some motionIndex =>
          rw [hi] at h
          dsimp only at h
          cases hmo : parseMotionM ((l0 :: rest).drop (motionIndex + 1)) with
          | none => rw [hmo] at h; simp at h
          | some md =>
            rw [hmo] at h
            simp only [Option.some.injEq] at h
            refine ⟨(l0 :: rest).drop (motionIndex + 1), ?_⟩
            rw [hmo, ← h]
    · rw [if_neg h0] at h
      simp at h

/-! ## Concrete fixtures for the claims -/

/-- The origin, `new THREE.Vector3(0, 0, 0)`. -/
def originV : V3 := ⟨some 0, some 0, some 0⟩

/-- The §8 concrete-scenario document. -/
def c1content : String :=
  "HIERARCHY\nROOT Hip\n\x7b\n  OFFSET 0 0 0\n  CHANNELS 6 Xposition Yposition Zposition Zrotation Xrotation Yrotation\n  JOINT Head\n  \x7b\n    OFFSET 0 20 0\n    CHANNELS 3 Zrotation Xrotation Yrotation\n    End Site\n    \x7b\n      OFFSET 0 5 0\n    \x7d\n  \x7d\n\x7d\nMOTION\nFrames: 1\nFrame Time: 0.0333333\n0 0 0 0 0 0 0 0 0\n"

/-- The skeleton the parser produces for `c1content` (note the End Site
child typed `"End"` and named `"Site"`). -/
def c1skel : BVHNode :=
  .mk "Hip" "ROOT" ⟨some 0, some 0, some 0⟩
    ["Xposition", "Yposition", "Zposition", "Zrotation", "Xrotation", "Yrotation"]
    [.mk "Head" "JOINT" ⟨some 0, some 20, some 0⟩
      ["Zrotation", "Xrotation", "Yrotation"]
      [.mk "Site" "End" ⟨some 0, some 5, some 0⟩ [] []]]

/-- The single all-zero frame of `c1content`. -/
def c1frame : List JsNum :=
  [some 0, some 0, some 0, some 0, some 0, some 0, some 0, some 0, some 0]

/-- The motion data of `c1content`. -/
def c1md : MotionData := ⟨1, some ((333333 : ℚ) / 10000000), [c1frame]⟩

/-- The bone table `createBonesFromBVH` builds for `c1skel` (no End-Site
entry is created, since the End Site node's type is `"End"`). -/
def c1bones : Store := createBones c1skel none originV []

/-- **C1.**  The §6-form document of the concrete scenario: `parse` returns
`totalChannels = 9` and the stated skeleton and motion data, and evaluating
frame 0 puts `Hip` at the origin and `Head` at `(0, 20, 0)`; however, the
claimed `EndSite_Head ↦ (0, 25, 0)` entry does not exist — the parser types
the End Site node `"End"`, so `updateFrame`'s End-Site branch (which tests
for the two-word type `'End Site'`) never fires, and no `EndSite_Head` key
is ever present.  Stated for any trig model with the true values at the only
angle used (0°). -/
theorem claim_C1 (t : Trig) (hc : t.cosd 0 = 1) (hs : t.sind 0 = 0) :
    parseBVH c1content = some ⟨c1skel, c1md, some 9⟩ ∧
    (ParseResult.mk c1skel c1md (some 9)).totalChannels = some 9 ∧
    ∃ st, updateFrameM t (some c1md) c1skel 0 c1bones = .ok st ∧
      mapGet st "Hip" = some ⟨some 0, some 0, some 0⟩ ∧
      mapGet st "Head" = some ⟨some 0, some 20, some 0⟩ ∧
      mapGet st "EndSite_Head" = none := by
  refine ⟨by with_unfolding_all rfl, rfl,
    applyWrites c1bones (fkTrace trigT c1frame c1skel M4.id4 0).1, ?_, ?_, ?_, ?_⟩
  · rw [updateFrame_trace t c1md c1skel 0 c1bones (by decide) (by decide) (by decide)]
    have hfd : c1md.frames.getD ((0 : ℤ)).toNat [] = c1frame := rfl
    rw [hfd]
    rw [fkTrace_congr t trigT c1frame c1skel ?_]
    intro q hq
    have hq0 : q = 0 := by
      simpa [c1frame] using hq
    subst hq0
    exact ⟨by rw [hc]; rfl, by rw [hs]; rfl⟩
  · with_unfolding_all rfl
  · with_unfolding_all rfl
  · with_unfolding_all rfl

/-- Witness for C1 at the decidable table trig model. -/
theorem claim_C1_witness :
    parseBVH c1content = some ⟨c1skel, c1md, some 9⟩ ∧
    (ParseResult.mk c1skel c1md (some 9)).totalChannels = some 9 ∧
    ∃ st, updateFrameM trigT (some c1md) c1skel 0 c1bones = .ok st ∧
      mapGet st "Hip" = some ⟨some 0, some 0, some 0⟩ ∧
      mapGet st "Head" = some ⟨some 0, some 20, some 0⟩ ∧
      mapGet st "EndSite_Head" = none :=
  claim_C1 trigT (by simp [trigT]) (by simp [trigT])

/-- **C2 counterexample.**  At the concrete scenario skeleton — whose `Head`
joint has an End Site child with offset `(0, 5, 0)` — evaluating frame 0
records no `EndSite_Head` entry at all: the full output mapping is exactly
`{Hip, Head}`.  This refutes the claim that an `EndSite_Head` world position
(let alone one with the parent's rotation applied to the offset) is
recorded. -/
theorem claim_C2_counterexample :
    updateFrameM trigT (some c1md) c1skel 0 c1bones =
      .ok [("Hip", ⟨some 0, some 0, some 0⟩), ("Head", ⟨some 0, some 20, some 0⟩)] ∧
    mapGet [("Hip", (⟨some 0, some 0, some 0⟩ : V3)),
      ("Head", ⟨some 0, some 20, some 0⟩)] "EndSite_Head" = none := by
  constructor
  · with_unfolding_all rfl
  · with_unfolding_all rfl

/-- **C2 (amended).**  The parser gives every node a whitespace-free type
(`parts[0]` of a whitespace split), so the evaluator's `'End Site'` branch
never fires: frame evaluation performs exactly the per-joint trace writes,
records nothing else (it cannot create any new key, in particular no
`EndSite_<parentName>` one), and a channel-less leaf consumes zero entries
from the channel cursor. -/
theorem claim_C2 :
    (∀ (fuel : ℕ) (isRoot : Bool) (lines : List String) (n : BVHNode)
        (tot : Option ℤ) (rest : List String),
      parseNodeF fuel isRoot lines = some (n, tot, rest) → nodeTypeOk n = true) ∧
    (∀ (t : Trig) (md : MotionData) (skel : BVHNode) (frameIndex : ℤ) (bones : Store),
      nodeTypeOk skel = true → 0 ≤ frameIndex → frameIndex < (md.frames.length : ℤ) →
      updateFrameM t (some md) skel frameIndex bones =
        .ok (applyWrites bones
          (fkTrace t (md.frames.getD frameIndex.toNat []) skel M4.id4 0).1) ∧
      ∀ k, mapGet bones k = none →
        mapGet (applyWrites bones
          (fkTrace t (md.frames.getD frameIndex.toNat []) skel M4.id4 0).1) k = none) ∧
    (∀ (t : Trig) (vals : List JsNum) (name ty : String) (off : V3) (pt : M4) (c : ℕ),
      (fkTrace t vals (.mk name ty off [] []) pt c).2 = c) := by
  refine ⟨?_, ?_, ?_⟩
  · intro fuel isRoot lines n tot rest h
    exact (parser_typeOk fuel).1 isRoot lines n tot rest h
  · intro t md skel frameIndex bones hok h0 hlt
    refine ⟨updateFrame_trace t md skel frameIndex bones h0 hlt hok, ?_⟩
    intro k hk
    exact applyWrites_none _ bones k hk
  · intro t vals name ty off pt c
    rw [fkTrace_cursor]
    simp [nodeChanSum, listChanSum]

/-- Witness for C2 at the concrete scenario. -/
theorem claim_C2_witness :
    updateFrameM trigT (some c1md) c1skel 0 c1bones =
      .ok (applyWrites c1bones
        (fkTrace trigT (c1md.frames.getD ((0 : ℤ)).toNat []) c1skel M4.id4 0).1) ∧
    ∀ k, mapGet c1bones k = none →
      mapGet (applyWrites c1bones
        (fkTrace trigT (c1md.frames.getD ((0 : ℤ)).toNat []) c1skel M4.id4 0).1) k = none :=
  claim_C2.2.1 trigT c1md c1skel 0 c1bones (by decide) (by decide) (by decide)

/-- A document with the 9-channel hierarchy but a single 3-value frame
line. -/
def c3content : String :=
  "HIERARCHY\nROOT Hip\n\x7b\n  OFFSET 0 0 0\n  CHANNELS 6 Xposition Yposition Zposition Zrotation Xrotation Yrotation\n  JOINT Head\n  \x7b\n    OFFSET 0 20 0\n    CHANNELS 3 Zrotation Xrotation Yrotation\n    End Site\n    \x7b\n      OFFSET 0 5 0\n    \x7d\n  \x7d\n\x7d\nMOTION\nFrames: 1\nFrame Time: 0.1\n1 2 3\n"

/-- **C3 counterexample.**  A hierarchy totalling 9 channels paired with a
frame of width 3 parses successfully — no consistency between
`totalChannels` and the frame widths is checked, and the frame width does
not equal `totalChannels`. -/
theorem claim_C3_counterexample :
    parseBVH c3content =
      some ⟨c1skel, ⟨1, some ((1 : ℚ) / 10), [[some 1, some 2, some 3]]⟩, some 9⟩ ∧
    ([[some 1, some 2, some 3]] : List (List JsNum)).all (fun f => f.length = 9) = false := by
  constructor
  · with_unfolding_all rfl
  · decide

/-- **C3 (amended).**  For every valid hierarchy text (the printed form of a
well-formed grammar tree, §6) with any motion section, `parse` succeeds and
its `totalChannels` equals the sum of `channels.length` over the produced
tree's nodes (End Sites carry none).  The parser performs no width check:
the frame lines are taken as-is (see the counterexample). -/
theorem claim_C3 (t : PTree) (fLine ftLine : String) (dataLines : List String)
    (N : ℕ) (tok : List Char) (hwf : wfPT t = true)
    (hframes : matchFrames fLine.data = some N)
    (hft : matchFrameTime ftLine.data = some tok) :
    ∃ r, parseBVHLines (assembled t fLine ftLine dataLines) = some r ∧
      r.totalChannels = some ((ptChanSum t : ℕ) : ℤ) ∧
      nodeChanSum r.skeleton = ptChanSum t := by
  refine ⟨_, parseBVHLines_assembled t fLine ftLine dataLines N tok hwf hframes hft, rfl, ?_⟩
  exact nodeChanSum_toNodePT t true

/-- The concrete-scenario hierarchy as a grammar tree. -/
def c1tree : PTree :=
  .node "Hip" "0" "0" "0" "6"
    ["Xposition", "Yposition", "Zposition", "Zrotation", "Xrotation", "Yrotation"]
    [.node "Head" "0" "20" "0" "3" ["Zrotation", "Xrotation", "Yrotation"]
      [.stop "0" "5" "0"]]

/-- Witness for C3 at the concrete-scenario tree. -/
theorem claim_C3_witness :
    ∃ r, parseBVHLines (assembled c1tree "Frames: 1" "Frame Time: 0.0333333"
        ["0 0 0 0 0 0 0 0 0"]) = some r ∧
      r.totalChannels = some ((ptChanSum c1tree : ℕ) : ℤ) ∧
      nodeChanSum r.skeleton = ptChanSum c1tree :=
  claim_C3 c1tree "Frames: 1" "Frame Time: 0.0333333" ["0 0 0 0 0 0 0 0 0"] 1
    ("0.0333333".toList) (by decide) (by decide) (by decide)

/-- **C4 counterexample.**  `frameIndex = -1` is outside `[0, frames.length)`
but is not caught by the guard `frameIndex >= frames.length`: the evaluation
reads `frames[-1]` (`undefined`) and throws a `TypeError` at the first
channel-value access, instead of being a no-op. -/
theorem claim_C4_counterexample :
    updateFrameM trigT (some c1md) c1skel (-1) c1bones = .error () := by
  with_unfolding_all rfl

/-- **C4 (amended).**  Frame evaluation is a silent no-op — bone table
unchanged, no error — when no motion data is loaded or when
`frameIndex ≥ frames.length`.  (A negative `frameIndex` is *not* guarded
and raises an error; see the counterexample.) -/
theorem claim_C4 (t : Trig) (motionData : Option MotionData) (skel : BVHNode)
    (frameIndex : ℤ) (bones : Store)
    (h : motionData = none ∨
      ∃ md, motionData = some md ∧ (md.frames.length : ℤ) ≤ frameIndex) :
    updateFrameM t motionData skel frameIndex bones = .ok bones := by
  rcases h with h | ⟨md, hmd, hge⟩
  · rw [h, updateFrameM]
  · rw [hmd, updateFrameM]
    rw [if_pos (by omega)]

/-- Witness for C4: frame index 5 of a 1-frame clip leaves the table
untouched. -/
theorem claim_C4_witness :
    updateFrameM trigT (some c1md) c1skel 5 c1bones = .ok c1bones :=
  claim_C4 trigT (some c1md) c1skel 5 c1bones (Or.inr ⟨c1md, rfl, by decide⟩)

/-- **C5.**  When the frame-0 pose resolves a head position (`Head`, else
`Neck`) and a foot position with body height `headY − footY > 1`, the
normalizer computes `scale = 160 / bodyHeight` — so the scaled body height
is exactly the canonical 160 — and puts the skeleton group at vertical
position `−(footY·scale) − 40`, so the scaled foot lands exactly at the
ground offset −40. -/
theorem claim_C5 (bones : Store) (head foot : V3) (hy fy : ℚ)
    (hh : findHeadPositionM bones = some head)
    (hf : findLowestFootPositionM bones = some foot)
    (hhy : head.y = some hy) (hfy : foot.y = some fy) (hbig : 1 < hy - fy) :
    normalizeSkeletonScaleM bones =
      some (some (160 / (hy - fy)), some (-(fy * (160 / (hy - fy))) - 40)) ∧
    (hy - fy) * (160 / (hy - fy)) = 160 ∧
    fy * (160 / (hy - fy)) + (-(fy * (160 / (hy - fy))) - 40) = -40 := by
  have hne : hy - fy ≠ 0 := by intro h; rw [h] at hbig; norm_num at hbig
  refine ⟨?_, ?_, ?_⟩
  · rw [normalizeSkeletonScaleM, hh, hf]
    dsimp only
    have hbh : head.y - foot.y = some (hy - fy) := by
      rw [hhy, hfy]; rfl
    rw [hbh]
    have hle : JsNum.le (some (hy - fy)) (some 1) = false := by
      simp [JsNum.le]
      linarith
    rw [hle]
    simp only [Bool.false_eq_true, if_false, ite_false]
    have hdiv : JsNum.div (some 160) (some (hy - fy)) = some (160 / (hy - fy)) := by
      simp [JsNum.div, hne]
    rw [hdiv, hfy]
    rfl
  · field_simp
  · ring

/-- Witness for C5: a head at height 17 and a left foot at height 1 give
body height 16, scale 10 and group height −50. -/
theorem claim_C5_witness :
    normalizeSkeletonScaleM
        [("Head", ⟨some 0, some 17, some 0⟩), ("LeftFoot", ⟨some 0, some 1, some 0⟩)] =
      some (some (160 / (17 - 1)), some (-(1 * (160 / (17 - 1))) - 40)) ∧
    ((17 : ℚ) - 1) * (160 / (17 - 1)) = 160 ∧
    (1 : ℚ) * (160 / (17 - 1)) + (-(1 * (160 / (17 - 1))) - 40) = -40 :=
  claim_C5 [("Head", ⟨some 0, some 17, some 0⟩), ("LeftFoot", ⟨some 0, some 1, some 0⟩)]
    ⟨some 0, some 17, some 0⟩ ⟨some 0, some 1, some 0⟩ 17 1
    (by with_unfolding_all rfl) (by with_unfolding_all rfl) rfl rfl (by norm_num)

/-- **C6.**  A document whose `MOTION` section declares `Frames: N` but
provides only `k < N` data lines still parses without any exception, and
the returned `frameCount` is the realized count `k` (as is the length of
`frames`). -/
theorem claim_C6 (t : PTree) (fLine ftLine : String) (dataLines : List String)
    (N k : ℕ) (tok : List Char) (hwf : wfPT t = true)
    (hframes : matchFrames fLine.data = some N)
    (hft : matchFrameTime ftLine.data = some tok)
    (hk : dataLines.length = k) (hlt : k < N) :
    ∃ r, parseBVHLines (assembled t fLine ftLine dataLines) = some r ∧
      r.motionData.frameCount = k ∧ r.motionData.frames.length = k := by
  refine ⟨_, parseBVHLines_assembled t fLine ftLine dataLines N tok hwf hframes hft, ?_, ?_⟩
  · dsimp only
    rw [List.length_take]
    omega
  · dsimp only
    rw [List.length_map, List.length_take]
    omega

/-- Witness for C6: `Frames: 10` with four data lines realizes 4 frames. -/
theorem claim_C6_witness :
    ∃ r, parseBVHLines (assembled c1tree "Frames: 10" "Frame Time: 0.0333333"
        ["0 0 0 0 0 0 0 0 0", "0 0 0 0 0 0 0 0 0",
         "0 0 0 0 0 0 0 0 0", "0 0 0 0 0 0 0 0 0"]) = some r ∧
      r.motionData.frameCount = 4 ∧ r.motionData.frames.length = 4 :=
  claim_C6 c1tree "Frames: 10" "Frame Time: 0.0333333"
    ["0 0 0 0 0 0 0 0 0", "0 0 0 0 0 0 0 0 0",
     "0 0 0 0 0 0 0 0 0", "0 0 0 0 0 0 0 0 0"] 10 4
    ("0.0333333".toList) (by decide) (by decide) (by decide) (by decide) (by decide)

/-- Root with `Xrotation` then `Yrotation`, child `C` offset `(0, 20, 0)`. -/
def c7skelA : BVHNode :=
  .mk "R" "ROOT" ⟨some 0, some 0, some 0⟩ ["Xrotation", "Yrotation"]
    [.mk "C" "JOINT" ⟨some 0, some 20, some 0⟩ ["Zrotation"] []]

/-- The same skeleton with the root's two rotation channels swapped. -/
def c7skelB : BVHNode :=
  .mk "R" "ROOT" ⟨some 0, some 0, some 0⟩ ["Yrotation", "Xrotation"]
    [.mk "C" "JOINT" ⟨some 0, some 20, some 0⟩ ["Zrotation"] []]

/-- Frame values 90°, 90° for the root and 0° for the child — identical for
both channel orders. -/
def c7frame : List JsNum := [some 90, some 90, some 0]

/-- One-frame clip with the `c7frame` values. -/
def c7md : MotionData := ⟨1, some ((1 : ℚ) / 10), [c7frame]⟩

/-- The bone table of `c7skelA` (identical for `c7skelB`). -/
def c7bones : Store := createBones c7skelA none originV []

/-- **C7.**  Reordering a joint's `CHANNELS` list changes the evaluated
world position: with root rotations `X` then `Y` of 90° each, the child
lands at `(0, 0, 20)`; with `Y` then `X` and the same frame values it lands
at `(20, 0, 0)`.  Channel composition follows the declared order and is not
normalized.  Stated for any trig model with the true cosine/sine at the two
angles used (0° and 90°). -/
theorem claim_C7 (t : Trig) (hc0 : t.cosd 0 = 1) (hs0 : t.sind 0 = 0)
    (hc90 : t.cosd 90 = 0) (hs90 : t.sind 90 = 1) :
    ∃ stA stB,
      updateFrameM t (some c7md) c7skelA 0 c7bones = .ok stA ∧
      updateFrameM t (some c7md) c7skelB 0 c7bones = .ok stB ∧
      mapGet stA "C" = some ⟨some 0, some 0, some 20⟩ ∧
      mapGet stB "C" = some ⟨some 20, some 0, some 0⟩ ∧
      mapGet stA "C" ≠ mapGet stB "C" := by
  have hagree : ∀ q : ℚ, (some q) ∈ c7frame → t.cosd q = trigT.cosd q ∧ t.sind q = trigT.sind q := by
    intro q hq
    have : q = 90 ∨ q = 0 := by simpa [c7frame] using hq
    rcases this with h | h <;> subst h
    · exact ⟨by rw [hc90]; rfl, by rw [hs90]; rfl⟩
    · exact ⟨by rw [hc0]; rfl, by rw [hs0]; rfl⟩
  have hfd : c7md.frames.getD ((0 : ℤ)).toNat [] = c7frame := rfl
  refine ⟨applyWrites c7bones (fkTrace trigT c7frame c7skelA M4.id4 0).1,
    applyWrites c7bones (fkTrace trigT c7frame c7skelB M4.id4 0).1, ?_, ?_, ?_, ?_, ?_⟩
  · rw [updateFrame_trace t c7md c7skelA 0 c7bones (by decide) (by decide) (by decide)]
    rw [hfd, fkTrace_congr t trigT c7frame c7skelA hagree]
  · rw [updateFrame_trace t c7md c7skelB 0 c7bones (by decide) (by decide) (by decide)]
    rw [hfd, fkTrace_congr t trigT c7frame c7skelB hagree]
  · with_unfolding_all rfl
  · with_unfolding_all rfl
  · rw [show mapGet (applyWrites c7bones (fkTrace trigT c7frame c7skelA M4.id4 0).1) "C" =
        some ⟨some 0, some 0, some 20⟩ from by with_unfolding_all rfl,
      show mapGet (applyWrites c7bones (fkTrace trigT c7frame c7skelB M4.id4 0).1) "C" =
        some ⟨some 20, some 0, some 0⟩ from by with_unfolding_all rfl]
    intro h
    rw [Option.some.injEq, V3.mk.injEq] at h
    have := h.1
    rw [Option.some.injEq] at this
    norm_num at this

/-- Witness for C7 at the decidable table trig model. -/
theorem claim_C7_witness :
    ∃ stA stB,
      updateFrameM trigT (some c7md) c7skelA 0 c7bones = .ok stA ∧
      updateFrameM trigT (some c7md) c7skelB 0 c7bones = .ok stB ∧
      mapGet stA "C" = some ⟨some 0, some 0, some 20⟩ ∧
      mapGet stB "C" = some ⟨some 20, some 0, some 0⟩ ∧
      mapGet stA "C" ≠ mapGet stB "C" :=
  claim_C7 trigT (by simp [trigT]) (by simp [trigT]) (by simp [trigT]) (by simp [trigT])

/-- **C8.**  The channel cursor: (1) on a present frame the channel loop of
a visited joint advances the single cursor by exactly `channels.length`, and
its `k`-th channel consumes the frame element at index `cursor-at-entry + k`
(`chanValsApplied` reads `vals.getD (start + k)` for the `k`-th channel);
(2) any successful `updateBone` call advances the cursor by exactly the
subtree's summed `channels.length` — children in declaration order — so an
End-Site node (empty `channels`, no children) advances it by zero; and
(3) for a parsed §6-form document the whole-tree sum equals the returned
`totalChannels`, so the cursor after the full traversal from 0 equals
`totalChannels`. -/
theorem claim_C8 :
    (∀ (t : Trig) (vals : List JsNum) (chans : List String) (m : M4) (c : ℕ),
      applyChans t (some vals) chans m c =
        .ok (chanValsApplied t vals c chans m, c + chans.length)) ∧
    (∀ (t : Trig) (fd : Option (List JsNum)) (n : BVHNode) (pt : M4) (st st2 : UBState),
      updateBoneM t fd n pt st = .ok st2 → st2.cursor = st.cursor + nodeChanSum n) ∧
    (∀ (name ty : String) (off : V3), nodeChanSum (.mk name ty off [] []) = 0) ∧
    (∀ (t : PTree) (fLine ftLine : String) (dataLines : List String) (N : ℕ)
        (tok : List Char), wfPT t = true →
      matchFrames fLine.data = some N → matchFrameTime ftLine.data = some tok →
      ∃ r, parseBVHLines (assembled t fLine ftLine dataLines) = some r ∧
        r.totalChannels = some ((nodeChanSum r.skeleton : ℕ) : ℤ)) := by
  refine ⟨?_, ?_, ?_, ?_⟩
  · intro t vals chans m c
    rw [applyChans_some, applyChansT_indexed]
  · intro t fd n pt st st2 h
    exact updateBone_cursor t fd n pt st st2 h
  · intro name ty off
    simp [nodeChanSum, listChanSum]
  · intro t fLine ftLine dataLines N tok hwf hframes hft
    refine ⟨_, parseBVHLines_assembled t fLine ftLine dataLines N tok hwf hframes hft, ?_⟩
    dsimp only
    rw [nodeChanSum_toNodePT t true]

/-- Witness for C8: the concrete scenario's channel loop, cursor advance
and total. -/
theorem claim_C8_witness :
    applyChans trigT (some c1frame) ["Xposition", "Yposition"] M4.id4 3 =
      .ok (chanValsApplied trigT c1frame 3 ["Xposition", "Yposition"] M4.id4, 3 + 2) ∧
    nodeChanSum (.mk "E" "End" originV [] []) = 0 ∧
    ∃ r, parseBVHLines (assembled c1tree "Frames: 1" "Frame Time: 0.0333333"
        ["0 0 0 0 0 0 0 0 0"]) = some r ∧
      r.totalChannels = some ((nodeChanSum r.skeleton : ℕ) : ℤ) :=
  ⟨claim_C8.1 trigT c1frame ["Xposition", "Yposition"] M4.id4 3,
   claim_C8.2.2.1 "E" "End" originV,
   claim_C8.2.2.2 c1tree "Frames: 1" "Frame Time: 0.0333333" ["0 0 0 0 0 0 0 0 0"] 1
     ("0.0333333".toList) (by decide) (by decide) (by decide)⟩

/-- The concrete scenario with a zero `Frame Time`. -/
def c9content : String :=
  "HIERARCHY\nROOT Hip\n\x7b\n  OFFSET 0 0 0\n  CHANNELS 6 Xposition Yposition Zposition Zrotation Xrotation Yrotation\n  JOINT Head\n  \x7b\n    OFFSET 0 20 0\n    CHANNELS 3 Zrotation Xrotation Yrotation\n    End Site\n    \x7b\n      OFFSET 0 5 0\n    \x7d\n  \x7d\n\x7d\nMOTION\nFrames: 1\nFrame Time: 0\n0 0 0 0 0 0 0 0 0\n"

/-- **C9 counterexample.**  A document with `Frame Time: 0` parses
successfully and its `frameTime` is exactly 0 — not strictly positive. -/
theorem claim_C9_counterexample :
    parseBVH c9content = some ⟨c1skel, ⟨1, some 0, [c1frame]⟩, some 9⟩ := by
  with_unfolding_all rfl

/-- **C9 (amended).**  On any successful parse the frame time is
`parseFloat` of the digits-and-dots token matched after `Frame Time:`; no
positivity check is performed.  The guarantee is only non-negativity
whenever the value is a number at all (the token has no sign; it can still
denote 0, or be all dots and yield NaN). -/
theorem claim_C9 (lines : List String) (r : ParseResult) (q : ℚ)
    (h : parseBVHLines lines = some r) (hq : r.motionData.frameTime = some q) :
    0 ≤ q := by
  obtain ⟨mlines, hm⟩ := parseBVHLines_motion lines r h
  obtain ⟨ftLine, tok, hft, hval⟩ := parseMotionM_frameTime mlines r.motionData hm
  obtain ⟨-, hchars⟩ := matchFrameTime_chars _ tok hft
  rw [hval] at hq
  exact parseFloatJS_digitdot_nonneg tok q hchars hq

/-- Witness for C9 at the concrete scenario: its frame time 0.0333333 is
non-negative. -/
theorem claim_C9_witness : (0 : ℚ) ≤ (333333 : ℚ) / 10000000 :=
  claim_C9 (jsLines c1content) ⟨c1skel, c1md, some 9⟩ ((333333 : ℚ) / 10000000)
    (by with_unfolding_all rfl) rfl

/-- A skeleton whose two same-named joints carry no channels: neither gets
a bone-table entry. -/
def c10badSkel : BVHNode :=
  .mk "R" "ROOT" originV ["Xposition"]
    [.mk "X" "JOINT" originV [] [], .mk "X" "JOINT" ⟨some 0, some 1, some 0⟩ [] []]

/-- **C10 counterexample.**  Two distinct joints named `X` with empty
channel lists: `createBonesFromBVH` skips both (its guard requires
`channels.length > 0`), so the bone table holds zero entries under `X`,
not exactly one. -/
theorem claim_C10_counterexample :
    (c10badSkel.children.filter (fun k => k.name = "X")).length = 2 ∧
    (createBones c10badSkel none originV []).filter (fun p => p.1 = "X") = [] := by
  with_unfolding_all decide

/-- **C10 (amended).**  The claim holds once the same-named joints carry
channels (a channel-less joint is never entered in the bone table at all):
if some joint named `X` has channels, the bone table has exactly one entry
under `X`; a valid frame evaluation succeeds; and the position then stored
under `X` is the one of the last pre-order visit writing to `X` (the last
element of the traversal trace filtered to `X`, here known nonempty since
at least two visits write to `X`). -/
theorem claim_C10 (t : Trig) (md : MotionData) (skel : BVHNode) (frameIndex : ℤ)
    (X : String)
    (hok : nodeTypeOk skel = true)
    (h0 : 0 ≤ frameIndex) (hlt : frameIndex < (md.frames.length : ℤ))
    (hch : hasChanJoint X skel = true)
    (hdup : 2 ≤ ((fkTrace t (md.frames.getD frameIndex.toNat []) skel M4.id4 0).1.filter
        (fun q => q.1 = X)).length) :
    ((createBones skel none originV []).filter (fun p => p.1 = X)).length = 1 ∧
    ∃ st, updateFrameM t (some md) skel frameIndex (createBones skel none originV []) =
        .ok st ∧
      mapGet st X =
        (((fkTrace t (md.frames.getD frameIndex.toNat []) skel M4.id4 0).1.filter
          (fun q => q.1 = X)).getLast?).map (fun q => q.2) := by
  have hpres := createBones_present skel X none originV [] hch
  have hnd : keysNodup (createBones skel none originV []) :=
    createBones_nodup skel none originV [] (by simp [keysNodup])
  refine ⟨keysNodup_count _ X hnd hpres, ?_⟩
  refine ⟨_, updateFrame_trace t md skel frameIndex _ h0 hlt hok, ?_⟩
  rw [applyWrites_get _ _ X hpres]
  cases hgl : ((fkTrace t (md.frames.getD frameIndex.toNat []) skel M4.id4 0).1.filter
      (fun q => q.1 = X)).getLast? with
  | none =>
    exfalso
    have hnil : ((fkTrace t (md.frames.getD frameIndex.toNat []) skel M4.id4 0).1.filter
        (fun q => q.1 = X)) = [] := by
      by_contra hne
      have hs := List.getLast?_isSome.mpr hne
      rw [hgl] at hs
      simp at hs
    rw [hnil] at hdup
    simp at hdup
  | some l => rfl

/-- The witness skeleton: a root named `X` with `Xposition`, and a joint
child also named `X` with `Xposition`. -/
def c10skel : BVHNode :=
  .mk "X" "ROOT" originV ["Xposition"]
    [.mk "X" "JOINT" ⟨some 0, some 5, some 0⟩ ["Xposition"] []]

/-- The witness frame: root reads 1, child reads 2. -/
def c10frame : List JsNum := [some 1, some 2]

/-- The witness motion data. -/
def c10md : MotionData := ⟨1, some 0, [c10frame]⟩

/-- Witness for C10 at the two-joints-named-`X` skeleton. -/
theorem claim_C10_witness :
    ((createBones c10skel none originV []).filter (fun p => p.1 = "X")).length = 1 ∧
    ∃ st, updateFrameM trigT (some c10md) c10skel 0 (createBones c10skel none originV []) =
        .ok st ∧
      mapGet st "X" =
        (((fkTrace trigT (c10md.frames.getD (0 : ℤ).toNat []) c10skel M4.id4 0).1.filter
          (fun q => q.1 = "X")).getLast?).map (fun q => q.2) :=
  claim_C10 trigT c10md c10skel 0 "X" (by decide) (by decide) (by decide) (by decide)
    (by with_unfolding_all decide)
